import Mathlib

/-!
Verification of the FileToVideo frame pipeline (Go source: encode/decode in
the main package).  Bytes are modelled as `Nat` (always < 256 where the Go
code guarantees `byte`), byte buffers either as `List Nat` or, for the large
pixel buffers, as total functions `Nat → Nat` (index `→` byte value,
zero-initialised like Go's `make([]byte, n)`).  Run-time panics (slice bounds
out of range) are modelled with `Option`.
-/

set_option maxRecDepth 10000

namespace FTV

/-! ### Geometry constants (source lines 15-21) -/

def dotSize : Nat := 8

def frameWidth : Nat := 1920

def frameHeight : Nat := 1080

/-- rawBytesPerFrame = frameWidth * frameHeight * 3 (3 bytes per pixel). -/
def rawBytesPerFrame : Nat := frameWidth * frameHeight * 3

/-- processedBytesPerFrame = frameWidth / dotSize * frameHeight / dotSize * 3 / 8. -/
def processedBytesPerFrame : Nat := frameWidth / dotSize * frameHeight / dotSize * 3 / 8

example : rawBytesPerFrame = 6220800 := rfl

example : processedBytesPerFrame = 12150 := rfl

/-- The `frameData` struct of the source (lines 23-26). -/
structure frameData where
  frameID : Nat
  value : List Nat

/-! ### Length header and chunking (encode, lines 44-58) -/

/-- binary.BigEndian.PutUint64: the 8 big-endian bytes of `n` (`n < 2^64`). -/
def putUint64BE (n : Nat) : List Nat :=
  [n / 2 ^ 56 % 256, n / 2 ^ 48 % 256, n / 2 ^ 40 % 256, n / 2 ^ 32 % 256,
   n / 2 ^ 24 % 256, n / 2 ^ 16 % 256, n / 2 ^ 8 % 256, n % 256]

/-- binary.BigEndian.Uint64 on an 8-byte slice (bytes < 256). -/
def beUint64 (l : List Nat) : Nat := l.foldl (fun acc b => acc * 256 + b) 0

/-- Source lines 46-48: `bytes = append(bytesLength, bytes...)` with the
8-byte big-endian length prefix. -/
def withHeader (bytes : List Nat) : List Nat := putUint64BE bytes.length ++ bytes

/-- The chunking loop of encode (lines 50-58): `for i := 0; i < length;
i += processedBytesPerFrame { rawFrames = append(rawFrames, bytes[i:end]) }`.
The fuel argument bounds the iteration count; `rawFrames` passes the list
length, which is an upper bound since each round drops at least one byte. -/
def chunkLoop : Nat → List Nat → List (List Nat)
  | 0, _ => []
  | _ + 1, [] => []
  | fuel + 1, l => l.take processedBytesPerFrame :: chunkLoop fuel (l.drop processedBytesPerFrame)

def rawFrames (bytes : List Nat) : List (List Nat) := chunkLoop bytes.length bytes

/-! ### The serializer (Frame Packer), encode lines 152-207.

One outer-loop iteration handles one macro-dot: the inner `j` loop reads up
to three payload bits (breaking out of the whole loop, after the mapping
step, when the payload is exhausted by setting `i = 2147483647`), and the
mapping step replicates the 3-channel pixel over the dotSize x dotSize block
of the RGBA buffer `pixelData`. -/

/-- One iteration of the `j` channel loop (lines 172-189): read bit
`frame[currByte] & (1 << bitInByte)`, give the channel value 0xff/0x00, then
advance the bit cursor; the `Bool` result is the graceful-break flag
(`currByte == frameLen` after the increment). -/
def chanStep (frame : List Nat) (currByte bitInByte : Nat) : Nat × Nat × Nat × Bool :=
  let v : Nat := if frame.getD currByte 0 &&& (1 <<< bitInByte) ≠ 0 then 0xff else 0x00
  if bitInByte = 0 then
    if currByte + 1 = frame.length then (v, currByte + 1, bitInByte, true)
    else (v, currByte + 1, 7, false)
  else (v, currByte, bitInByte - 1, false)

/-- The `j = 0,1,2` loop unrolled; channels after a break keep the reset
value 0 (lines 167-169 reset `pixel` each iteration). -/
def serDot (frame : List Nat) (currByte bitInByte : Nat) : List Nat × Nat × Nat × Bool :=
  let r0 := chanStep frame currByte bitInByte
  if r0.2.2.2 then ([r0.1, 0, 0], r0.2.1, r0.2.2.1, true)
  else
    let r1 := chanStep frame r0.2.1 r0.2.2.1
    if r1.2.2.2 then ([r0.1, r1.1, 0], r1.2.1, r1.2.2.1, true)
    else
      let r2 := chanStep frame r1.2.1 r1.2.2.1
      ([r0.1, r1.1, r2.1], r2.2.1, r2.2.2.1, r2.2.2.2)

/-- Denotation of `copy(pixelData[coords:coords+3], pixel)` on the
function-modelled buffer. -/
def copyPixel (pd : Nat → Nat) (coords : Nat) (px : List Nat) : Nat → Nat :=
  fun a => if coords ≤ a ∧ a < coords + 3 then px.getD (a - coords) 0 else pd a

/-- The mapping step (lines 192-197): for `row` in `[rowIterator*8, +8)` and
`column` in `[columnIterator*8, +8)`, copy the pixel to
`pixelData[column*7680 + row*4 : +3]` (7680 = 1920 * 4 channels). -/
def mapDot (pd : Nat → Nat) (px : List Nat) (rowIterator columnIterator : Nat) : Nat → Nat :=
  (List.range' (rowIterator * dotSize) dotSize).foldl
    (fun pd1 row =>
      (List.range' (columnIterator * dotSize) dotSize).foldl
        (fun pd2 column => copyPixel pd2 (column * 7680 + row * 4) px) pd1)
    pd

/-- The outer loop `for i := 0; i < len(pixelData); i += 4` (lines 165-203);
`len(pixelData) = 8294400`.  A break sets `i = 2147483647` before the loop
increment.  The fuel equals the remaining iteration budget
(`(8294400 - i) / 4` at entry). -/
def serLoop (frame : List Nat) :
    Nat → Nat → Nat → Nat → Nat → Nat → (Nat → Nat) → (Nat → Nat)
  | 0, _, _, _, _, _, pd => pd
  | fuel + 1, i, rowIterator, columnIterator, currByte, bitInByte, pd =>
    if i < 8294400 then
      let r := serDot frame currByte bitInByte
      serLoop frame fuel ((if r.2.2.2 then 2147483647 else i) + 4)
        (if rowIterator + 1 = 240 then 0 else rowIterator + 1)
        (if rowIterator + 1 = 240 then columnIterator + 1 else columnIterator)
        r.2.1 r.2.2.1 (mapDot pd r.1 rowIterator columnIterator)
    else pd

/-- The serializer body for one frame (lines 156-204): produces the RGBA
`pixelData` buffer from the payload segment `frame`. -/
def serializer (frame : List Nat) : Nat → Nat :=
  serLoop frame 2073600 0 0 0 0 7 (fun _ => 0)

/-! ### Specification-side description of the packed buffer -/

/-- Bit `n` of a payload, most-significant-bit first within each byte. -/
def specBit (frame : List Nat) (n : Nat) : Bool :=
  Nat.testBit (frame.getD (n / 8) 0) (7 - n % 8)

/-- Channel index (0 = R, 1 = G, 2 = B, 3 = alpha) of RGBA buffer address `a`. -/
def chOf (a : Nat) : Nat := a % 4

/-- Pixel x coordinate of RGBA buffer address `a`. -/
def xOf (a : Nat) : Nat := a / 4 % 1920

/-- Pixel y coordinate of RGBA buffer address `a`. -/
def yOf (a : Nat) : Nat := a / 7680

/-- Row-major macro-dot index of the block covering address `a`. -/
def dotIdxOf (a : Nat) : Nat := 240 * (yOf a / 8) + xOf a / 8

/-- Payload bit index encoded at address `a` (3 bits per macro-dot, one per
RGB channel). -/
def bitIdxOf (a : Nat) : Nat := 3 * dotIdxOf a + chOf a

/-- The channel byte encoding payload bit `k`: 0xff for bits that exist and
are set, 0 otherwise. -/
def bitByte (frame : List Nat) (k : Nat) : Nat :=
  if k < 8 * frame.length ∧ specBit frame k then 0xff else 0x00

/-- The expected content of the packed buffer: channel bytes are 0xff
exactly for payload bits that exist and are set; everything else (cleared
bits, alpha channel, macro-dots past the payload) is 0. -/
def serSpec (frame : List Nat) : Nat → Nat :=
  fun a => if chOf a < 3 then bitByte frame (bitIdxOf a) else 0x00

/-! ### The frame digester (Frame Unpacker), decode lines 314-344.

The input is one rgb24 frame (3 bytes per pixel) modelled as a function
`Nat → Nat`; the output `processedBytes` buffer is also a function. -/

/-- One step of the inner `for _, bit := range bytes[pixelCoords:pixelCoords+3]`
loop (lines 325-334): OR the high-bit test into `processedBytes[currByte]`,
then advance the bit cursor.  The source decrements `bitInByte` and resets to
7 when it reaches -1; with `bitInByte : Nat` this is the `if bitInByte = 0`
shape below. -/
def digChanStep (bmp : Nat → Nat) (st : (Nat → Nat) × Nat × Nat) (addr : Nat) :
    (Nat → Nat) × Nat × Nat :=
  let pb := st.1
  let currByte := st.2.1
  let bitInByte := st.2.2
  let pb1 := if bmp addr &&& 0x80 ≠ 0 then
      (fun b => if b = currByte then pb currByte ||| (1 <<< bitInByte) else pb b)
    else pb
  if bitInByte = 0 then (pb1, currByte + 1, 7) else (pb1, currByte, bitInByte - 1)

/-- The 3-channel inner loop at one sampled pixel. -/
def digSample (bmp : Nat → Nat) (st : (Nat → Nat) × Nat × Nat) (pixelCoords : Nat) :
    (Nat → Nat) × Nat × Nat :=
  (List.range' pixelCoords 3).foldl (digChanStep bmp) st

/-- The `for pixel := 9; pixel < 5760; pixel += 24` loop of one line
(line 323); 5760 = 1920 * 3 bytes, so 240 iterations. -/
def digLine (bmp : Nat → Nat) (st : (Nat → Nat) × Nat × Nat) (line : Nat) :
    (Nat → Nat) × Nat × Nat :=
  (List.range' 9 240 24).foldl (fun st1 pixel => digSample bmp st1 (line * 5760 + pixel)) st

/-- The digester body (lines 316-337): `for line := 3; line < 1080; line += 8`
gives 135 lines; state starts with the zeroed `processedBytes` buffer,
`currByte = 0`, `bitInByte = 7`. -/
def digRun (bmp : Nat → Nat) : (Nat → Nat) × Nat × Nat :=
  (List.range' 3 135 8).foldl (digLine bmp) (fun _ => 0, 0, 7)

/-- First component of the digester state. -/
def pbOf (st : (Nat → Nat) × Nat × Nat) : Nat → Nat := st.1

/-- The `processedBytes` buffer the digester leaves behind. -/
def frameDigester (bmp : Nat → Nat) : Nat → Nat := pbOf (digRun bmp)

/-- Materialise the digester output buffer as the `processedBytes` byte slice. -/
def digestList (pb : Nat → Nat) : List Nat :=
  (List.range processedBytesPerFrame).map pb

/-! ### Specification-side description of the digester -/

/-- The rgb24 byte address sampled for payload bit `n`: macro-dot
`n / 3` in row-major order, channel `n % 3`, sampled at the pixel offset
(3, 3) inside the 8 x 8 block (pixel x = 3 + 8 * (dot x), y = 3 + 8 * (dot y)). -/
def sampleAddr (n : Nat) : Nat :=
  ((3 + 8 * (n / 3 / 240)) * 1920 + (3 + 8 * (n / 3 % 240))) * 3 + n % 3

/-- The digester output after the first `n` bits have been processed: byte
`b` holds (MSB first) those bits `8*b + t < n` whose sampled byte has the
high bit (0x80) set. -/
def digPartial (bmp : Nat → Nat) (n : Nat) : Nat → Nat :=
  fun b =>
    (List.range 8).foldl
      (fun acc t =>
        acc ||| (if 8 * b + t < n ∧ bmp (sampleAddr (8 * b + t)) &&& 128 ≠ 0
          then 2 ^ (7 - t) else 0))
      0

/-- The expected digester output: all 97200 bits (= 135 * 240 macro-dots * 3
channels) sampled at block offset (3, 3), MSB-first. -/
def digSpec (bmp : Nat → Nat) : Nat → Nat := digPartial bmp 97200

/-- The sampling address the spec claims (C4): the block centre at offset
`dotSize / 2 = 4` in both dimensions.  Written from the spec's words, to be
compared with the source-derived sampler. -/
def sampleAddrCenter (n : Nat) : Nat :=
  ((4 + 8 * (n / 3 / 240)) * 1920 + (4 + 8 * (n / 3 % 240))) * 3 + n % 3

/-- The digester output claimed by the spec: as `digSpec` but sampling each
block at its centre, offset `dotSize / 2 = 4`. -/
def digSpecCenter (bmp : Nat → Nat) : Nat → Nat :=
  fun b =>
    (List.range 8).foldl
      (fun acc t =>
        acc ||| (if 8 * b + t < 97200 ∧ bmp (sampleAddrCenter (8 * b + t)) &&& 128 ≠ 0
          then 2 ^ (7 - t) else 0))
      0

/-- A bitmap that is black except for one white pixel at (x, y) = (4, 4) —
the position the spec's "block centre, offset dotSize/2 = 4" sampling would
read for macro-dot 0, channel R. -/
def c4Bitmap : Nat → Nat := fun a => if a = (4 * 1920 + 4) * 3 then 255 else 0

/-! ### Go slice operations that can panic, and the output file model -/

/-- Go slice expression `l[lo:hi]`: defined when `lo ≤ hi ≤ len(l)`,
otherwise a run-time panic (`none`). -/
def goSlice (l : List Nat) (lo hi : Nat) : Option (List Nat) :=
  if lo ≤ hi ∧ hi ≤ l.length then some ((l.drop lo).take (hi - lo)) else none

/-- Go slice expression `l[:k]` with an `int64` bound `k`: panics when
`k < 0` or `k > len(l)`. -/
def goTakeInt (l : List Nat) (k : Int) : Option (List Nat) :=
  if 0 ≤ k ∧ k ≤ (l.length : Int) then some (l.take k.toNat) else none

/-- The destination file: its size and contents (unwritten bytes read 0,
as the file is created empty and only grown by Truncate/WriteAt). -/
structure GoFile where
  size : Nat
  data : Nat → Nat

/-- os.Create gives an empty file. -/
def emptyFile : GoFile := ⟨0, fun _ => 0⟩

/-- file.Truncate(n): sets the size; bytes past the size read as 0 (a later
re-extension sees zeros). -/
def fileTruncate (f : GoFile) (n : Nat) : GoFile :=
  ⟨n, fun a => if a < n then f.data a else 0⟩

/-- file.WriteAt(bs, off): writes at the byte offset, extending the file if
needed (the gap, if any, reads as zeros via the zero-initialised model). -/
def fileWriteAt (f : GoFile) (bs : List Nat) (off : Nat) : GoFile :=
  ⟨max f.size (off + bs.length),
   fun a => if off ≤ a ∧ a < off + bs.length then bs.getD (a - off) 0 else f.data a⟩

/-- The materialised contents of the file. -/
def fileBytes (f : GoFile) : List Nat := (List.range f.size).map f.data

/-! ### Ordered insertion into the reorder buffer (encode lines 122-134,
decode lines 369-377 and 425-434) -/

/-- sort.Search(len(keys), func(i) { return keys[i] >= frameID }): the least
index whose key is ≥ frameID (= len(keys) when there is none; on the sorted
key list this is what Go's binary search returns). -/
def goSearch (keys : List Nat) (frameID : Nat) : Nat :=
  keys.findIdx (fun k => frameID ≤ k)

/-- Append a temporary element, shift right from the insertion index, and
set `keys[index] = frameID`: net effect, insert at the searched position. -/
def insertSorted (keys : List Nat) (frameID : Nat) : List Nat :=
  keys.take (goSearch keys frameID) ++ frameID :: keys.drop (goSearch keys frameID)

/-! ### The ffmpeg-instance reorder loop of encode (lines 97-136) -/

/-- State of the encode emitter: `out` is the sequence of `stdin.Write`
payloads delivered to the codec process. -/
structure EmitSt where
  out : List (List Nat)
  buffer : Nat → Option (List Nat)
  keys : List Nat
  keysLen : Nat
  wantedID : Nat

/-- The drain loop `for keys[0] == wantedID { stdin.Write(buffer[wantedID]);
delete(buffer, wantedID); keys = keys[1:]; keysLen--; wantedID++; ... }`
(lines 112-121).  `buffer[wantedID]` on a missing key is Go's nil slice,
whence `getD []`. -/
def emitDrain :
    (Nat → Option (List Nat)) → List Nat → Nat → Nat → List (List Nat) →
      (Nat → Option (List Nat)) × List Nat × Nat × Nat × List (List Nat)
  | buffer, [], keysLen, wantedID, out => (buffer, [], keysLen, wantedID, out)
  | buffer, k :: ks, keysLen, wantedID, out =>
    if k = wantedID then
      emitDrain (fun j => if j = wantedID then none else buffer j) ks (keysLen - 1)
        (wantedID + 1) (out ++ [(buffer wantedID).getD []])
    else (buffer, k :: ks, keysLen, wantedID, out)

/-- One iteration of `for frame := range framesChanIn` (lines 103-135). -/
def emitStep (st : EmitSt) (frame : frameData) : EmitSt :=
  if frame.frameID = st.wantedID then
    let out1 := st.out ++ [frame.value]
    let w1 := st.wantedID + 1
    if st.keysLen = 0 then { st with out := out1, wantedID := w1 }
    else
      match emitDrain st.buffer st.keys st.keysLen w1 out1 with
      | (b2, k2, l2, w2, o2) => ⟨o2, b2, k2, l2, w2⟩
  else
    { st with
      buffer := fun j => if j = frame.frameID then some frame.value else st.buffer j
      keys := insertSorted st.keys frame.frameID
      keysLen := st.keysLen + 1 }

/-- The emitter run over the whole (arbitrarily ordered) completion stream. -/
def emitRun (frames : List frameData) : EmitSt :=
  frames.foldl emitStep ⟨[], fun _ => none, [], 0, 0⟩

/-! ### The writer goroutine of decode (lines 350-440).

The source is two consecutive `for range` loops over the same channel: the
first buffers frames until frame 0 arrives and handles the header, the
second is the reorder loop.  `gotFrame0` records which loop we are in.
`none` models a slice-bounds panic. -/

structure WriteSt where
  gotFrame0 : Bool
  file : GoFile
  lengthInt : Nat
  lastFrameOffset : Int
  buffer : Nat → Option (List Nat)
  keys : List Nat
  keysLen : Nat
  wantedID : Nat
  nextWriteByte : Nat

/-- Initial state (lines 351-364): empty created file, `wantedID = 1`,
`nextWriteByte = processedBytesPerFrame - 8 = 12142`; `lengthInt` and
`lastFrameOffset` are zero-valued declarations. -/
def writeInit : WriteSt :=
  ⟨false, emptyFile, 0, 0, fun _ => none, [], 0, 1, processedBytesPerFrame - 8⟩

/-- The drain loop of the writer (lines 414-424), writing buffered frames at
`nextWriteByte` and advancing it by `processedBytesPerFrame`. -/
def writeDrain :
    GoFile → (Nat → Option (List Nat)) → List Nat → Nat → Nat → Nat →
      GoFile × (Nat → Option (List Nat)) × List Nat × Nat × Nat × Nat
  | file, buffer, [], keysLen, wantedID, nextWriteByte =>
    (file, buffer, [], keysLen, wantedID, nextWriteByte)
  | file, buffer, k :: ks, keysLen, wantedID, nextWriteByte =>
    if k = wantedID then
      writeDrain (fileWriteAt file ((buffer wantedID).getD []) nextWriteByte)
        (fun j => if j = wantedID then none else buffer j) ks (keysLen - 1)
        (wantedID + 1) (nextWriteByte + processedBytesPerFrame)
    else (file, buffer, k :: ks, keysLen, wantedID, nextWriteByte)

/-- The number of frames spanned: `int(math.Ceil(float64(lengthInt+8) /
float64(processedBytesPerFrame)))` (line 403); exact for the int64 range
the file sizes at play occupy, modelled as the exact Nat ceiling. -/
def ceilFrames (lengthInt : Nat) : Nat :=
  (lengthInt + 8 + (processedBytesPerFrame - 1)) / processedBytesPerFrame

/-- One received frame of the writer: the pre-frame-0 loop (lines 366-398)
when `gotFrame0 = false`, the reorder loop (lines 400-435) afterwards. -/
def writeStep (st : WriteSt) (frame : frameData) : Option WriteSt :=
  if st.gotFrame0 = false then
    if frame.frameID ≠ 0 then
      some { st with
        buffer := fun j => if j = frame.frameID then some frame.value else st.buffer j
        keys := insertSorted st.keys frame.frameID
        keysLen := st.keysLen + 1 }
    else
      let lengthInt := beUint64 (frame.value.take 8)
      let lastFrameOffset := ((lengthInt : Int) - 12142).tmod 12150
      let file1 := fileTruncate st.file lengthInt
      if lengthInt < processedBytesPerFrame - 8 then
        match goSlice frame.value 8 lengthInt with
        | none => none
        | some s =>
          some { st with
            gotFrame0 := true
            file := fileWriteAt file1 s 0
            lengthInt := lengthInt
            lastFrameOffset := lastFrameOffset }
      else
        some { st with
          gotFrame0 := true
          file := fileWriteAt file1 (frame.value.drop 8) 0
          lengthInt := lengthInt
          lastFrameOffset := lastFrameOffset }
  else
    if frame.frameID = st.wantedID then
      let v? : Option (List Nat) :=
        if frame.frameID = ceilFrames st.lengthInt - 1 then
          goTakeInt frame.value st.lastFrameOffset
        else some frame.value
      match v? with
      | none => none
      | some v =>
        let file1 := fileWriteAt st.file v st.nextWriteByte
        let n1 := st.nextWriteByte + processedBytesPerFrame
        let w1 := st.wantedID + 1
        if st.keysLen = 0 then
          some { st with file := file1, nextWriteByte := n1, wantedID := w1 }
        else
          match writeDrain file1 st.buffer st.keys st.keysLen w1 n1 with
          | (f2, b2, k2, l2, w2, n2) =>
            some { st with
            file := f2
            buffer := b2
            keys := k2
            keysLen := l2
            wantedID := w2
            nextWriteByte := n2 }
    else
      some { st with
        buffer := fun j => if j = frame.frameID then some frame.value else st.buffer j
        keys := insertSorted st.keys frame.frameID
        keysLen := st.keysLen + 1 }

/-- The writer run over the whole (arbitrarily ordered) digested stream. -/
def writeRun (frames : List frameData) : Option WriteSt :=
  frames.foldlM writeStep writeInit

/-- The destination file the writer leaves behind. -/
def writerFile (frames : List frameData) : Option GoFile :=
  (writeRun frames).map WriteSt.file

/-! ### Concrete scenario values (length-header-prefixed chunks and their
digested frame values under a lossless codec) -/

def c6Chunk : List Nat := putUint64BE 0

def c6Value : List Nat := c6Chunk ++ List.replicate 12142 0

def c8Chunk : List Nat := putUint64BE 1 ++ [0x41]

def c8Value : List Nat := c8Chunk ++ List.replicate 12141 0

def c1Chunk : List Nat := putUint64BE 8 ++ [1, 2, 3, 4, 5, 6, 7, 8]

def c1Value : List Nat := c1Chunk ++ List.replicate 12134 0

def c2f0v : List Nat := putUint64BE 12150 ++ List.replicate 12142 7

def c2f1v : List Nat := 42 :: List.replicate 12149 0

def c7f0v : List Nat := putUint64BE 24292 ++ List.replicate 12142 3

def c7f1v : List Nat := List.replicate 12150 3

/-! ### Reorder-buffer invariants (data-model section of the spec) -/

/-- The reorder-buffer invariant of the emitter state: `keysLen` mirrors the
key list, the key list is strictly ascending, keys and buffer entries
correspond, and every buffered index exceeds the cursor; `past` is the list
of frame indices received so far. -/
def EmitInv (st : EmitSt) (past : List Nat) : Prop :=
  st.keysLen = st.keys.length ∧
  st.keys.Sorted (· < ·) ∧
  (∀ k, k ∈ st.keys ↔ (st.buffer k).isSome) ∧
  (∀ k ∈ st.keys, st.wantedID < k) ∧
  (∀ j, j < st.wantedID → j ∈ past) ∧
  (∀ k ∈ st.keys, k ∈ past)

/-- The reorder-buffer invariant of the writer state: as `EmitInv` but the
cursor bound is only `≤` (an index equal to `wantedID = 1` can be buffered
while frame 0 is still pending), and the received-index property holds once
frame 0 has been handled. -/
def WriteInv (st : WriteSt) (past : List Nat) : Prop :=
  st.keysLen = st.keys.length ∧
  st.keys.Sorted (· < ·) ∧
  (∀ k, k ∈ st.keys ↔ (st.buffer k).isSome) ∧
  (∀ k ∈ st.keys, st.wantedID ≤ k) ∧
  (st.gotFrame0 = true → ∀ j, j < st.wantedID → j ∈ past) ∧
  (∀ k ∈ st.keys, k ∈ past) ∧
  (st.gotFrame0 = false → st.wantedID = 1)

/-! ### End-to-end pipeline composition (lossless codec assumption) -/

/-- The encode side: length header, chunking, and per-frame packing. -/
def encodeFrames (srcBytes : List Nat) : List (List Nat) :=
  rawFrames (withHeader srcBytes)

def encodePixels (srcBytes : List Nat) : List (Nat → Nat) :=
  (encodeFrames srcBytes).map serializer

/-- The lossless codec boundary: encode feeds rgba (4 bytes per pixel) and
decode reads back rgb24 (3 bytes per pixel) of the same frame. -/
def rgb24 (pd : Nat → Nat) : Nat → Nat := fun a => pd (a / 3 * 4 + a % 3)

/-- Frame indices as assigned by the decode reader goroutine
(`frameCount++`, lines 273-294). -/
def indexFrames : List (List Nat) → Nat → List frameData
  | [], _ => []
  | v :: rest, start => ⟨start, v⟩ :: indexFrames rest (start + 1)

/-- The decode side on losslessly recovered pixel frames, with frames
reaching the writer in index order (frame i carries index i). -/
def decodeFromPixels (bufs : List (Nat → Nat)) : Option GoFile :=
  writerFile (indexFrames (bufs.map fun pd => digestList (frameDigester (rgb24 pd))) 0)

/-- decode(encode(B)) at the byte level. -/
def roundTrip (srcBytes : List Nat) : Option (List Nat) :=
  (decodeFromPixels (encodePixels srcBytes)).map fileBytes

/-! ## Theorems

### Serializer correctness -/

theorem and_shift_ne_zero (x k : Nat) : (x &&& (1 <<< k) ≠ 0) ↔ x.testBit k = true := by
  rw [Nat.one_shiftLeft, Nat.and_two_pow]
  cases h : x.testBit k
  · simp
  · simp [h]

theorem chanStep_eq (frame : List Nat) (n : Nat) (h : n < 8 * frame.length) :
    chanStep frame (n / 8) (7 - n % 8) =
      (if specBit frame n then 255 else 0, (n + 1) / 8,
       if n + 1 = 8 * frame.length then 0 else 7 - (n + 1) % 8,
       decide (n + 1 = 8 * frame.length)) := by
  have hv : (if frame.getD (n / 8) 0 &&& (1 <<< (7 - n % 8)) ≠ 0 then (255 : Nat) else 0) =
      (if specBit frame n then 255 else 0) := by
    by_cases hb : specBit frame n = true
    · rw [if_pos ((and_shift_ne_zero _ _).mpr hb), if_pos hb]
    · rw [if_neg, if_neg hb]
      rw [and_shift_ne_zero]
      exact hb
  unfold chanStep
  simp only [hv]
  by_cases h7 : 7 - n % 8 = 0
  · rw [if_pos h7]
    by_cases hl : n / 8 + 1 = frame.length
    · have hbits : n + 1 = 8 * frame.length := by omega
      rw [if_pos hl]
      simp only [Prod.mk.injEq]
      refine ⟨trivial, by omega, ?_, ?_⟩
      · rw [if_pos hbits]; omega
      · simp [hbits]
    · have hbits : ¬(n + 1 = 8 * frame.length) := by omega
      rw [if_neg hl]
      simp only [Prod.mk.injEq]
      refine ⟨trivial, by omega, ?_, ?_⟩
      · rw [if_neg hbits]; omega
      · simp [hbits]
  · rw [if_neg h7]
    have hbits : ¬(n + 1 = 8 * frame.length) := by omega
    simp only [Prod.mk.injEq]
    refine ⟨trivial, by omega, ?_, ?_⟩
    · rw [if_neg hbits]; omega
    · simp [hbits]

theorem bitByte_of_lt (frame : List Nat) (k : Nat) (h : k < 8 * frame.length) :
    bitByte frame k = if specBit frame k then 255 else 0 := by
  unfold bitByte
  by_cases hb : specBit frame k = true
  · rw [if_pos ⟨h, hb⟩, if_pos hb]
  · rw [if_neg (fun hx => hb hx.2), if_neg hb]

theorem bitByte_of_ge (frame : List Nat) (k : Nat) (h : 8 * frame.length ≤ k) :
    bitByte frame k = 0 := by
  unfold bitByte
  rw [if_neg (fun hx => by omega)]

theorem serDot_cont (frame : List Nat) (m : Nat) (h : 3 * m + 3 < 8 * frame.length) :
    serDot frame ((3 * m) / 8) (7 - (3 * m) % 8) =
      ([bitByte frame (3 * m), bitByte frame (3 * m + 1), bitByte frame (3 * m + 2)],
       (3 * m + 3) / 8, 7 - (3 * m + 3) % 8, false) := by
  have h1 : ¬(3 * m + 1 = 8 * frame.length) := by omega
  have h2 : ¬(3 * m + 2 = 8 * frame.length) := by omega
  have h3 : ¬(3 * m + 3 = 8 * frame.length) := by omega
  have e1 := chanStep_eq frame (3 * m) (by omega)
  rw [if_neg h1] at e1
  have e2 := chanStep_eq frame (3 * m + 1) (by omega)
  rw [if_neg h2] at e2
  have e3 := chanStep_eq frame (3 * m + 2) (by omega)
  rw [if_neg h3] at e3
  unfold serDot
  rw [e1]
  simp only [decide_eq_true_eq, if_neg h1]
  have a2 : (3 * m + 1) + 1 = 3 * m + 2 := by omega
  rw [a2] at e2
  rw [e2]
  simp only [decide_eq_true_eq, if_neg h2]
  have a3 : (3 * m + 2) + 1 = 3 * m + 3 := by omega
  rw [a3] at e3
  rw [e3]
  simp only [decide_eq_true_eq, Prod.mk.injEq, List.cons.injEq]
  refine ⟨⟨?_, ?_, ?_, trivial⟩, trivial, trivial, by simp [h3]⟩
  · rw [bitByte_of_lt frame (3 * m) (by omega)]
  · rw [bitByte_of_lt frame (3 * m + 1) (by omega)]
  · rw [bitByte_of_lt frame (3 * m + 2) (by omega)]

theorem serDot_last (frame : List Nat) (m : Nat) (hlo : 3 * m < 8 * frame.length)
    (hhi : 8 * frame.length ≤ 3 * m + 3) :
    (serDot frame ((3 * m) / 8) (7 - (3 * m) % 8)).1 =
      [bitByte frame (3 * m), bitByte frame (3 * m + 1), bitByte frame (3 * m + 2)] ∧
    (serDot frame ((3 * m) / 8) (7 - (3 * m) % 8)).2.2.2 = true := by
  have hcase : 8 * frame.length = 3 * m + 1 ∨ 8 * frame.length = 3 * m + 2 ∨
      8 * frame.length = 3 * m + 3 := by omega
  unfold serDot
  rcases hcase with hc | hc | hc
  · have e1 := chanStep_eq frame (3 * m) (by omega)
    rw [if_pos hc.symm] at e1
    rw [e1]
    simp only [decide_eq_true_eq, if_pos hc.symm, List.cons.injEq]
    refine ⟨⟨?_, ?_, ?_, trivial⟩, trivial⟩
    · rw [bitByte_of_lt frame (3 * m) (by omega)]
    · rw [bitByte_of_ge frame (3 * m + 1) (by omega)]
    · rw [bitByte_of_ge frame (3 * m + 2) (by omega)]
  · have h1 : ¬(3 * m + 1 = 8 * frame.length) := by omega
    have e1 := chanStep_eq frame (3 * m) (by omega)
    rw [if_neg h1] at e1
    have e2 := chanStep_eq frame (3 * m + 1) (by omega)
    rw [show (3 * m + 1) + 1 = 3 * m + 2 from by omega, if_pos hc.symm] at e2
    rw [e1]
    simp only [decide_eq_true_eq, if_neg h1]
    rw [e2]
    simp only [decide_eq_true_eq, if_pos hc.symm, List.cons.injEq]
    refine ⟨⟨?_, ?_, ?_, trivial⟩, trivial⟩
    · rw [bitByte_of_lt frame (3 * m) (by omega)]
    · rw [bitByte_of_lt frame (3 * m + 1) (by omega)]
    · rw [bitByte_of_ge frame (3 * m + 2) (by omega)]
  · have h1 : ¬(3 * m + 1 = 8 * frame.length) := by omega
    have h2 : ¬(3 * m + 2 = 8 * frame.length) := by omega
    have e1 := chanStep_eq frame (3 * m) (by omega)
    rw [if_neg h1] at e1
    have e2 := chanStep_eq frame (3 * m + 1) (by omega)
    rw [show (3 * m + 1) + 1 = 3 * m + 2 from by omega, if_neg h2] at e2
    have e3 := chanStep_eq frame (3 * m + 2) (by omega)
    rw [show (3 * m + 2) + 1 = 3 * m + 3 from by omega] at e3
    rw [e1]
    simp only [decide_eq_true_eq, if_neg h1]
    rw [e2]
    simp only [decide_eq_true_eq, if_neg h2]
    rw [e3]
    simp only [decide_eq_true_eq, List.cons.injEq]
    refine ⟨⟨?_, ?_, ?_, trivial⟩, by simp [hc.symm]⟩
    · rw [bitByte_of_lt frame (3 * m) (by omega)]
    · rw [bitByte_of_lt frame (3 * m + 1) (by omega)]
    · rw [bitByte_of_lt frame (3 * m + 2) (by omega)]

theorem mem_range'_one (s n m : Nat) : m ∈ List.range' s n ↔ s ≤ m ∧ m < s + n := by
  rw [List.mem_range']
  constructor
  · rintro ⟨i, hi, rfl⟩
    omega
  · intro hm
    exact ⟨m - s, by omega, by omega⟩

theorem xOf_lt (a : Nat) : xOf a < 1920 := Nat.mod_lt _ (by omega)

theorem chOf_lt (a : Nat) : chOf a < 4 := Nat.mod_lt _ (by omega)

theorem foldl_copy_cols (px : List Nat) (row : Nat) (hrow : row < 1920) :
    ∀ (cols : List Nat) (pd : Nat → Nat) (a : Nat),
      (cols.foldl (fun pd2 column => copyPixel pd2 (column * 7680 + row * 4) px) pd) a =
        if yOf a ∈ cols ∧ xOf a = row ∧ chOf a < 3 then px.getD (chOf a) 0 else pd a := by
  intro cols
  induction cols with
  | nil => intro pd a; simp
  | cons c cs ih =>
    intro pd a
    rw [List.foldl_cons, ih]
    have key : (c * 7680 + row * 4 ≤ a ∧ a < c * 7680 + row * 4 + 3) ↔
        (yOf a = c ∧ xOf a = row ∧ chOf a < 3) := by
      unfold yOf xOf chOf
      omega
    by_cases hc : yOf a ∈ cs ∧ xOf a = row ∧ chOf a < 3
    · rw [if_pos hc, if_pos ⟨List.mem_cons_of_mem c hc.1, hc.2⟩]
    · rw [if_neg hc]
      unfold copyPixel
      by_cases hit : yOf a = c ∧ xOf a = row ∧ chOf a < 3
      · rw [if_pos (key.mpr hit), if_pos ⟨hit.1 ▸ List.mem_cons_self c cs, hit.2⟩]
        have : a - (c * 7680 + row * 4) = chOf a := by
          have := key.mpr hit
          unfold chOf
          omega
        rw [this]
      · rw [if_neg (fun hk => hit (key.mp hk)), if_neg]
        rintro ⟨hmem, hx, hch⟩
        rcases List.mem_cons.mp hmem with h | h
        · exact hit ⟨h, hx, hch⟩
        · exact hc ⟨h, hx, hch⟩

theorem foldl_copy_rows (px : List Nat) (cols : List Nat) :
    ∀ (rows : List Nat), (∀ r ∈ rows, r < 1920) → ∀ (pd : Nat → Nat) (a : Nat),
      (rows.foldl (fun pd1 row =>
          cols.foldl (fun pd2 column => copyPixel pd2 (column * 7680 + row * 4) px) pd1) pd) a =
        if xOf a ∈ rows ∧ yOf a ∈ cols ∧ chOf a < 3 then px.getD (chOf a) 0 else pd a := by
  intro rows
  induction rows with
  | nil => intro _ pd a; simp
  | cons r rs ih =>
    intro hb pd a
    rw [List.foldl_cons, ih (fun q hq => hb q (List.mem_cons_of_mem r hq)),
      foldl_copy_cols px r (hb r (List.mem_cons_self r rs))]
    by_cases h1 : xOf a ∈ rs ∧ yOf a ∈ cols ∧ chOf a < 3
    · rw [if_pos h1, if_pos ⟨List.mem_cons_of_mem r h1.1, h1.2⟩]
    · rw [if_neg h1]
      by_cases h2 : yOf a ∈ cols ∧ xOf a = r ∧ chOf a < 3
      · rw [if_pos h2, if_pos ⟨h2.2.1 ▸ List.mem_cons_self r rs, h2.1, h2.2.2⟩]
      · rw [if_neg h2, if_neg]
        rintro ⟨hmem, hy, hch⟩
        rcases List.mem_cons.mp hmem with h | h
        · exact h2 ⟨hy, h, hch⟩
        · exact h1 ⟨h, hy, hch⟩

theorem mapDot_eq (px : List Nat) (rowIterator columnIterator : Nat)
    (hr : rowIterator < 240) (pd : Nat → Nat) (a : Nat) :
    mapDot pd px rowIterator columnIterator a =
      if dotIdxOf a = 240 * columnIterator + rowIterator ∧ chOf a < 3 then
        px.getD (chOf a) 0
      else pd a := by
  unfold mapDot dotSize
  rw [foldl_copy_rows px _ _ (fun q hq => by
    rw [mem_range'_one] at hq
    omega)]
  have hx := xOf_lt a
  refine if_congr ?_ rfl rfl
  rw [mem_range'_one, mem_range'_one]
  unfold dotIdxOf
  constructor
  · rintro ⟨hxr, hyc, hch⟩
    exact ⟨by omega, hch⟩
  · rintro ⟨hdot, hch⟩
    refine ⟨⟨?_, ?_⟩, ⟨?_, ?_⟩, hch⟩ <;> omega

theorem serLoop_exit (frame : List Nat) (fuel i r c cb bi : Nat) (pd : Nat → Nat)
    (h : 8294400 ≤ i) : serLoop frame fuel i r c cb bi pd = pd := by
  cases fuel with
  | zero => rfl
  | succ f =>
    unfold serLoop
    rw [if_neg (by omega)]

theorem getD_bit_list (frame : List Nat) (m c : Nat) (hc : c < 3) :
    [bitByte frame (3 * m), bitByte frame (3 * m + 1), bitByte frame (3 * m + 2)].getD c 0 =
      bitByte frame (3 * m + c) := by
  interval_cases c <;> simp

theorem mapDot_invariant (frame : List Nat) (m : Nat) (pd : Nat → Nat)
    (hpd : ∀ a, pd a = if dotIdxOf a < m ∧ chOf a < 3 then bitByte frame (bitIdxOf a) else 0) :
    ∀ a, mapDot pd
        [bitByte frame (3 * m), bitByte frame (3 * m + 1), bitByte frame (3 * m + 2)]
        (m % 240) (m / 240) a =
      if dotIdxOf a < m + 1 ∧ chOf a < 3 then bitByte frame (bitIdxOf a) else 0 := by
  intro a
  rw [mapDot_eq _ _ _ (by omega) pd a,
    show 240 * (m / 240) + m % 240 = m from by omega]
  by_cases hhit : dotIdxOf a = m ∧ chOf a < 3
  · rw [if_pos hhit, if_pos ⟨by omega, hhit.2⟩, getD_bit_list frame m _ hhit.2]
    unfold bitIdxOf
    rw [hhit.1]
  · rw [if_neg hhit, hpd a]
    by_cases hch : chOf a < 3
    · by_cases hlt : dotIdxOf a < m
      · rw [if_pos ⟨hlt, hch⟩, if_pos ⟨by omega, hch⟩]
      · rw [if_neg (fun hx => hlt hx.1), if_neg]
        rintro ⟨hx1, hx2⟩
        exact hhit ⟨by omega, hx2⟩
    · rw [if_neg (fun hx => hch hx.2), if_neg (fun hx => hch hx.2)]

theorem serLoop_inv (frame : List Nat) (hlen : 1 ≤ frame.length)
    (hcap : frame.length ≤ 12150) :
    ∀ (fuel m : Nat) (pd : Nat → Nat),
      fuel + m = 2073600 →
      3 * m < 8 * frame.length →
      (∀ a, pd a = if dotIdxOf a < m ∧ chOf a < 3 then bitByte frame (bitIdxOf a) else 0) →
      serLoop frame fuel (4 * m) (m % 240) (m / 240) (3 * m / 8) (7 - 3 * m % 8) pd =
        serSpec frame := by
  intro fuel
  induction fuel with
  | zero =>
    intro m pd hf h3 hpd
    exfalso
    omega
  | succ f ih =>
    intro m pd hf h3 hpd
    have hi : 4 * m < 8294400 := by omega
    unfold serLoop
    rw [if_pos hi]
    by_cases hbr : 8 * frame.length ≤ 3 * m + 3
    · obtain ⟨hpx, hflag⟩ := serDot_last frame m h3 hbr
      simp only [hflag, hpx, if_true]
      rw [serLoop_exit frame f _ _ _ _ _ _ (by omega)]
      funext a
      rw [mapDot_invariant frame m pd hpd a]
      unfold serSpec
      by_cases hch : chOf a < 3
      · by_cases hd : dotIdxOf a < m + 1
        · rw [if_pos ⟨hd, hch⟩, if_pos hch]
        · rw [if_neg (fun hx => hd hx.1), if_pos hch,
            bitByte_of_ge frame _ (by unfold bitIdxOf; omega)]
      · rw [if_neg (fun hx => hch hx.2), if_neg hch]
    · simp only [serDot_cont frame m (by omega), Bool.false_eq_true, if_false]
      have er : (if m % 240 + 1 = 240 then 0 else m % 240 + 1) = (m + 1) % 240 := by
        by_cases h240 : m % 240 + 1 = 240
        · rw [if_pos h240]; omega
        · rw [if_neg h240]; omega
      have ec : (if m % 240 + 1 = 240 then m / 240 + 1 else m / 240) = (m + 1) / 240 := by
        by_cases h240 : m % 240 + 1 = 240
        · rw [if_pos h240]; omega
        · rw [if_neg h240]; omega
      rw [er, ec]
      have hnext := ih (m + 1) _ (by omega) (by omega) (mapDot_invariant frame m pd hpd)
      rw [show 3 * (m + 1) = 3 * m + 3 from by omega,
        show 4 * (m + 1) = 4 * m + 4 from by omega] at hnext
      exact hnext

theorem serializer_eq (frame : List Nat) (h1 : 1 ≤ frame.length)
    (h2 : frame.length ≤ 12150) : serializer frame = serSpec frame := by
  unfold serializer
  have h0 := serLoop_inv frame h1 h2 2073600 0 (fun _ => 0) (by omega) (by omega)
    (by
      intro a
      rw [if_neg]
      rintro ⟨hlt, _⟩
      omega)
  simpa using h0

/-! ### Digester correctness -/

theorem testBit_ite_pow (c : Prop) [Decidable c] (k j : Nat) :
    (if c then 2 ^ k else 0).testBit j = (decide c && decide (k = j)) := by
  by_cases hc : c
  · simp [hc, Nat.testBit_two_pow]
  · simp [hc]

theorem digPartial_testBit (bmp : Nat → Nat) (n b j : Nat) :
    (digPartial bmp n b).testBit j =
      decide (j < 8 ∧ 8 * b + (7 - j) < n ∧
        bmp (sampleAddr (8 * b + (7 - j))) &&& 128 ≠ 0) := by
  unfold digPartial
  rw [show List.range 8 = [0, 1, 2, 3, 4, 5, 6, 7] from rfl]
  simp only [List.foldl_cons, List.foldl_nil, Nat.testBit_or, testBit_ite_pow,
    Nat.zero_testBit, Bool.false_or]
  by_cases hj : j < 8
  · interval_cases j <;> simp
  · have e0 : ¬((7 : Nat) = j) := by omega
    have e1 : ¬((6 : Nat) = j) := by omega
    have e2 : ¬((5 : Nat) = j) := by omega
    have e3 : ¬((4 : Nat) = j) := by omega
    have e4 : ¬((3 : Nat) = j) := by omega
    have e5 : ¬((2 : Nat) = j) := by omega
    have e6 : ¬((1 : Nat) = j) := by omega
    have e7 : ¬((0 : Nat) = j) := by omega
    simp [e0, e1, e2, e3, e4, e5, e6, e7, hj]

theorem digPartial_succ (bmp : Nat → Nat) (n : Nat) (b : Nat) :
    digPartial bmp (n + 1) b =
      if (bmp (sampleAddr n) &&& 128 ≠ 0) ∧ b = n / 8 then
        digPartial bmp n b ||| (1 <<< (7 - n % 8))
      else digPartial bmp n b := by
  by_cases hc : (bmp (sampleAddr n) &&& 128 ≠ 0) ∧ b = n / 8
  · rw [if_pos hc]
    apply Nat.eq_of_testBit_eq
    intro j
    rw [digPartial_testBit, Nat.testBit_or, digPartial_testBit, Nat.one_shiftLeft,
      Nat.testBit_two_pow]
    obtain ⟨hP, hb⟩ := hc
    by_cases hj : j = 7 - n % 8
    · have hidx : 8 * b + (7 - j) = n := by omega
      rw [hidx]
      simp [hj, hP, Nat.lt_irrefl, Nat.lt_succ_self, Nat.mod_lt]
      omega
    · by_cases hj8 : j < 8
      · have hne : 8 * b + (7 - j) ≠ n := by omega
        have harith : (8 * b + (7 - j) < n + 1) ↔ (8 * b + (7 - j) < n) := by omega
        simp only [harith]
        have : ¬((7 - n % 8) = j) := by omega
        simp [this]
      · have hne7 : ¬((7 - n % 8) = j) := by omega
        simp [hj8, hne7]
  · rw [if_neg hc]
    apply Nat.eq_of_testBit_eq
    intro j
    rw [digPartial_testBit, digPartial_testBit]
    by_cases hj8 : j < 8
    · by_cases hidx : 8 * b + (7 - j) = n
      · -- the new bit: either the sampled high bit is clear or b ≠ n/8, but
        -- b = (8*b + (7-j)) / 8 forces b = n / 8 here, so the bit is clear
        have hb : b = n / 8 := by omega
        have hP : ¬(bmp (sampleAddr n) &&& 128 ≠ 0) := fun hP => hc ⟨hP, hb⟩
        rw [hidx]
        simp [hP, Nat.lt_irrefl]
      · have harith : (8 * b + (7 - j) < n + 1) ↔ (8 * b + (7 - j) < n) := by omega
        simp only [harith]
    · simp [hj8]

theorem digChanStep_eq (bmp : Nat → Nat) (n : Nat) :
    digChanStep bmp (digPartial bmp n, n / 8, 7 - n % 8) (sampleAddr n) =
      (digPartial bmp (n + 1), (n + 1) / 8, 7 - (n + 1) % 8) := by
  unfold digChanStep
  have hpb : (if bmp (sampleAddr n) &&& 0x80 ≠ 0 then
      (fun b => if b = n / 8 then digPartial bmp n (n / 8) ||| (1 <<< (7 - n % 8))
        else digPartial bmp n b)
      else digPartial bmp n) = digPartial bmp (n + 1) := by
    by_cases hP : bmp (sampleAddr n) &&& 0x80 ≠ 0
    · rw [if_pos hP]
      funext b
      rw [digPartial_succ]
      by_cases hb : b = n / 8
      · rw [if_pos hb, if_pos ⟨hP, hb⟩, hb]
      · rw [if_neg hb, if_neg (fun hx => hb hx.2)]
    · rw [if_neg hP]
      funext b
      rw [digPartial_succ, if_neg (fun hx => hP hx.1)]
  simp only []
  rw [hpb]
  by_cases h7 : 7 - n % 8 = 0
  · rw [if_pos h7]
    simp only [Prod.mk.injEq]
    exact ⟨trivial, by omega, by omega⟩
  · rw [if_neg h7]
    simp only [Prod.mk.injEq]
    exact ⟨trivial, by omega, by omega⟩

theorem digSample_eq (bmp : Nat → Nat) (ln pn s : Nat) (hpn : pn < 240)
    (hs : s = 240 * ln + pn) :
    digSample bmp (digPartial bmp (3 * s), 3 * s / 8, 7 - 3 * s % 8)
        ((3 + 8 * ln) * 5760 + (9 + 24 * pn)) =
      (digPartial bmp (3 * s + 3), (3 * s + 3) / 8, 7 - (3 * s + 3) % 8) := by
  have e0 : (3 + 8 * ln) * 5760 + (9 + 24 * pn) = sampleAddr (3 * s) := by
    subst hs
    unfold sampleAddr
    omega
  have e1 : (3 + 8 * ln) * 5760 + (9 + 24 * pn) + 1 = sampleAddr (3 * s + 1) := by
    subst hs
    unfold sampleAddr
    omega
  have e2 : (3 + 8 * ln) * 5760 + (9 + 24 * pn) + 1 + 1 = sampleAddr (3 * s + 2) := by
    subst hs
    unfold sampleAddr
    omega
  unfold digSample
  rw [show List.range' ((3 + 8 * ln) * 5760 + (9 + 24 * pn)) 3 =
    [(3 + 8 * ln) * 5760 + (9 + 24 * pn), (3 + 8 * ln) * 5760 + (9 + 24 * pn) + 1,
     (3 + 8 * ln) * 5760 + (9 + 24 * pn) + 1 + 1] from rfl]
  rw [e0]
  rw [show sampleAddr (3 * s) + 1 = sampleAddr (3 * s + 1) from by rw [← e0]; exact e1]
  rw [show sampleAddr (3 * s + 1) + 1 = sampleAddr (3 * s + 2) from by rw [← e1]; exact e2]
  rw [List.foldl_cons, digChanStep_eq bmp (3 * s), List.foldl_cons,
    digChanStep_eq bmp (3 * s + 1), List.foldl_cons, digChanStep_eq bmp (3 * s + 2),
    List.foldl_nil]

theorem digPixels_eq (bmp : Nat → Nat) (ln : Nat) :
    ∀ (k pn : Nat), pn + k = 240 →
      (List.range' (9 + 24 * pn) k 24).foldl
          (fun st1 pixel => digSample bmp st1 ((3 + 8 * ln) * 5760 + pixel))
          (digPartial bmp (3 * (240 * ln + pn)), 3 * (240 * ln + pn) / 8,
            7 - 3 * (240 * ln + pn) % 8) =
        (digPartial bmp (3 * (240 * ln + 240)), 3 * (240 * ln + 240) / 8,
          7 - 3 * (240 * ln + 240) % 8) := by
  intro k
  induction k with
  | zero =>
    intro pn h
    have : pn = 240 := by omega
    subst this
    rfl
  | succ kk ih =>
    intro pn h
    rw [show List.range' (9 + 24 * pn) (kk + 1) 24 =
      (9 + 24 * pn) :: List.range' (9 + 24 * pn + 24) kk 24 from rfl]
    rw [List.foldl_cons, digSample_eq bmp ln pn (240 * ln + pn) (by omega) rfl]
    have hnext := ih (pn + 1) (by omega)
    rw [show (9 : Nat) + 24 * (pn + 1) = 9 + 24 * pn + 24 from by ring] at hnext
    rw [show 3 * (240 * ln + (pn + 1)) = 3 * (240 * ln + pn) + 3 from by ring] at hnext
    exact hnext

theorem digLines_eq (bmp : Nat → Nat) :
    ∀ (j l0 : Nat), l0 + j = 135 →
      (List.range' (3 + 8 * l0) j 8).foldl (digLine bmp)
          (digPartial bmp (3 * (240 * l0)), 3 * (240 * l0) / 8, 7 - 3 * (240 * l0) % 8) =
        (digPartial bmp 97200, 97200 / 8, 7 - 97200 % 8) := by
  intro j
  induction j with
  | zero =>
    intro l0 h
    have : l0 = 135 := by omega
    subst this
    norm_num
  | succ jj ih =>
    intro l0 h
    rw [show List.range' (3 + 8 * l0) (jj + 1) 8 =
      (3 + 8 * l0) :: List.range' (3 + 8 * l0 + 8) jj 8 from rfl]
    rw [List.foldl_cons]
    have hline : digLine bmp
        (digPartial bmp (3 * (240 * l0)), 3 * (240 * l0) / 8, 7 - 3 * (240 * l0) % 8)
        (3 + 8 * l0) =
        (digPartial bmp (3 * (240 * l0 + 240)), 3 * (240 * l0 + 240) / 8,
          7 - 3 * (240 * l0 + 240) % 8) := by
      unfold digLine
      have := digPixels_eq bmp l0 240 0 (by omega)
      rw [show (9 : Nat) + 24 * 0 = 9 from by ring,
        show 240 * l0 + 0 = 240 * l0 from by ring] at this
      exact this
    rw [hline]
    have hnext := ih (l0 + 1) (by omega)
    rw [show (3 : Nat) + 8 * (l0 + 1) = 3 + 8 * l0 + 8 from by ring,
      show 240 * (l0 + 1) = 240 * l0 + 240 from by ring] at hnext
    exact hnext

theorem digPartial_zero (bmp : Nat → Nat) : digPartial bmp 0 = fun _ => 0 := by
  funext b
  apply Nat.eq_of_testBit_eq
  intro j
  rw [digPartial_testBit]
  simp

theorem digRun_eq (bmp : Nat → Nat) :
    digRun bmp = (digPartial bmp 97200, 97200 / 8, 7 - 97200 % 8) := by
  unfold digRun
  have h0 := digLines_eq bmp 135 0 (by omega)
  rw [show (3 : Nat) + 8 * 0 = 3 from by norm_num, digPartial_zero bmp,
    show (3 : Nat) * (240 * 0) / 8 = 0 from by norm_num,
    show (7 : Nat) - 3 * (240 * 0) % 8 = 7 from by norm_num] at h0
  exact h0

theorem frameDigester_eq (bmp : Nat → Nat) : frameDigester bmp = digSpec bmp := by
  have h := congrArg pbOf (digRun_eq bmp)
  exact h

/-! ### Claim theorems for the packer and unpacker -/

/-- C3: for a payload segment of length 1..processedBytesPerFrame, the Frame
Packer consumes bits MSB-first, 3 per macro-dot (channel 0xff iff the bit is
set, alpha unused), fills macro-dots row-major over the 240 x 135 dot grid,
replicates each dot over its 8 x 8 pixels, and leaves macro-dots beyond the
payload at the zero-initialised value — exactly `serSpec`. -/
theorem packer_pointwise (frame : List Nat) (h1 : 1 ≤ frame.length)
    (h2 : frame.length ≤ processedBytesPerFrame) :
    serializer frame = serSpec frame :=
  serializer_eq frame h1 h2

theorem packer_pointwise_witness :
    1 ≤ ([0x41] : List Nat).length ∧ ([0x41] : List Nat).length ≤ processedBytesPerFrame ∧
      serializer [0x41] = serSpec [0x41] :=
  ⟨by decide, by decide, packer_pointwise [0x41] (by decide) (by decide)⟩

/-- C4 (counterexample): the digester does not sample at the block centre,
offset dotSize/2 = 4: on a bitmap white only at pixel (4, 4), the claimed
centre sampling yields byte 0 = 0x80 while the code's digester yields 0. -/
theorem unpacker_center_refuted : frameDigester c4Bitmap 0 ≠ digSpecCenter c4Bitmap 0 := by
  rw [frameDigester_eq]
  decide

/-- C4 (amended): the Frame Unpacker samples one pixel per 8 x 8 macro-dot
block at offset 3 (= dotSize/2 - 1) in both dimensions — pixel
(3 + 8 * dotX, 3 + 8 * dotY) — in row-major macro-dot order, one bit per
RGB channel, MSB-first: exactly `digSpec`. -/
theorem unpacker_samples_offset3 (bmp : Nat → Nat) : frameDigester bmp = digSpec bmp :=
  frameDigester_eq bmp

/-- C5: perturbing channel bytes without changing any high bit (0x80) at the
sampled positions leaves the unpacked payload unchanged. -/
theorem unpacker_threshold (b1 b2 : Nat → Nat)
    (h : ∀ n, n < 97200 → b1 (sampleAddr n) &&& 128 = b2 (sampleAddr n) &&& 128) :
    frameDigester b1 = frameDigester b2 := by
  rw [frameDigester_eq, frameDigester_eq]
  funext b
  apply Nat.eq_of_testBit_eq
  intro j
  unfold digSpec
  rw [digPartial_testBit, digPartial_testBit]
  by_cases hcond : j < 8 ∧ 8 * b + (7 - j) < 97200
  · rw [h (8 * b + (7 - j)) hcond.2]
  · have hfalse : ∀ (f : Nat → Nat),
        decide (j < 8 ∧ 8 * b + (7 - j) < 97200 ∧
          f (sampleAddr (8 * b + (7 - j))) &&& 128 ≠ 0) = false := by
      intro f
      apply decide_eq_false
      rintro ⟨hj, hn, _⟩
      exact hcond ⟨hj, hn⟩
    rw [hfalse b1, hfalse b2]

theorem unpacker_threshold_witness :
    (∀ n, n < 97200 →
      (fun _ => (255 : Nat)) (sampleAddr n) &&& 128 =
        (fun _ => (224 : Nat)) (sampleAddr n) &&& 128) ∧
    frameDigester (fun _ => 255) = frameDigester (fun _ => 224) :=
  have h : ∀ n, n < 97200 →
      (fun _ => (255 : Nat)) (sampleAddr n) &&& 128 =
        (fun _ => (224 : Nat)) (sampleAddr n) &&& 128 := by
    intro n _
    show (255 : Nat) &&& 128 = 224 &&& 128
    decide
  ⟨h, unpacker_threshold _ _ h⟩

/-! ### Round-trip of one frame through packer, codec boundary and unpacker -/

theorem sampleAddr_decomp (n : Nat) :
    chOf (sampleAddr n / 3 * 4 + sampleAddr n % 3) = n % 3 ∧
    bitIdxOf (sampleAddr n / 3 * 4 + sampleAddr n % 3) = n := by
  have hdiv : sampleAddr n / 3 = (3 + 8 * (n / 3 / 240)) * 1920 + (3 + 8 * (n / 3 % 240)) ∧
      sampleAddr n % 3 = n % 3 := by
    unfold sampleAddr
    omega
  have hA : sampleAddr n / 3 * 4 + sampleAddr n % 3 =
      (3 + 8 * (n / 3 / 240)) * 7680 + (3 + 8 * (n / 3 % 240)) * 4 + n % 3 := by
    rw [hdiv.1, hdiv.2]
    ring
  have hch : chOf (sampleAddr n / 3 * 4 + sampleAddr n % 3) = n % 3 := by
    unfold chOf
    rw [hA]
    omega
  have hx : xOf (sampleAddr n / 3 * 4 + sampleAddr n % 3) = 3 + 8 * (n / 3 % 240) := by
    unfold xOf
    rw [hA]
    omega
  have hy : yOf (sampleAddr n / 3 * 4 + sampleAddr n % 3) = 3 + 8 * (n / 3 / 240) := by
    unfold yOf
    rw [hA]
    omega
  have hdot : dotIdxOf (sampleAddr n / 3 * 4 + sampleAddr n % 3) =
      240 * (n / 3 / 240) + n / 3 % 240 := by
    unfold dotIdxOf
    rw [hx, hy]
    omega
  have hbit : bitIdxOf (sampleAddr n / 3 * 4 + sampleAddr n % 3) = n := by
    unfold bitIdxOf
    rw [hdot, hch]
    omega
  exact ⟨hch, hbit⟩

theorem bitByte_and128 (c : List Nat) (n : Nat) :
    (bitByte c n &&& 128 ≠ 0) ↔ (n < 8 * c.length ∧ specBit c n = true) := by
  unfold bitByte
  by_cases hx : n < 8 * c.length ∧ specBit c n = true
  · rw [if_pos hx]
    simp [hx]
  · rw [if_neg hx]
    simp [hx]

theorem digest_serializer (c : List Nat) (h1 : 1 ≤ c.length) (h2 : c.length ≤ 12150)
    (hb : ∀ x ∈ c, x < 256) :
    frameDigester (rgb24 (serializer c)) = fun b => if b < c.length then c.getD b 0 else 0 := by
  rw [frameDigester_eq]
  funext b
  apply Nat.eq_of_testBit_eq
  intro j
  unfold digSpec
  rw [digPartial_testBit]
  have hbyte : (if b < c.length then c.getD b 0 else 0) < 256 := by
    by_cases hbl : b < c.length
    · rw [if_pos hbl, List.getD_eq_getElem c 0 hbl]
      exact hb _ (List.getElem_mem hbl)
    · rw [if_neg hbl]
      omega
  by_cases hj : j < 8
  · have hrgb : rgb24 (serializer c) (sampleAddr (8 * b + (7 - j))) =
        serSpec c (sampleAddr (8 * b + (7 - j)) / 3 * 4 + sampleAddr (8 * b + (7 - j)) % 3) := by
      unfold rgb24
      rw [congrFun (serializer_eq c h1 h2) _]
    have key := sampleAddr_decomp (8 * b + (7 - j))
    have hval : serSpec c (sampleAddr (8 * b + (7 - j)) / 3 * 4 +
        sampleAddr (8 * b + (7 - j)) % 3) = bitByte c (8 * b + (7 - j)) := by
      unfold serSpec
      rw [if_pos (by omega : chOf (sampleAddr (8 * b + (7 - j)) / 3 * 4 +
        sampleAddr (8 * b + (7 - j)) % 3) < 3), key.2]
    rw [hrgb, hval]
    by_cases hbl : b < c.length
    · have hn : 8 * b + (7 - j) < 97200 := by omega
      have hlen : 8 * b + (7 - j) < 8 * c.length := by omega
      have hs : specBit c (8 * b + (7 - j)) = (c.getD b 0).testBit j := by
        unfold specBit
        rw [show (8 * b + (7 - j)) / 8 = b from by omega,
          show 7 - (8 * b + (7 - j)) % 8 = j from by omega]
      rw [if_pos hbl]
      rcases ht : (c.getD b 0).testBit j with _ | _
      · apply decide_eq_false
        rintro ⟨-, -, hx⟩
        rw [bitByte_and128] at hx
        rw [hs, ht] at hx
        exact Bool.false_ne_true hx.2
      · apply decide_eq_true
        refine ⟨hj, hn, ?_⟩
        rw [bitByte_and128, hs, ht]
        exact ⟨hlen, rfl⟩
    · rw [if_neg hbl, Nat.zero_testBit]
      apply decide_eq_false
      rintro ⟨-, -, hx⟩
      rw [bitByte_and128] at hx
      omega
  · have h256 : (256 : Nat) ≤ 2 ^ j := by
      calc (256 : Nat) = 2 ^ 8 := by norm_num
        _ ≤ 2 ^ j := Nat.pow_le_pow_right (by norm_num) (by omega)
    rw [Nat.testBit_lt_two_pow (by omega)]
    apply decide_eq_false
    rintro ⟨hx, -⟩
    exact hj hx

theorem digestList_serializer (c : List Nat) (h1 : 1 ≤ c.length) (h2 : c.length ≤ 12150)
    (hb : ∀ x ∈ c, x < 256) :
    digestList (frameDigester (rgb24 (serializer c))) =
      c ++ List.replicate (12150 - c.length) 0 := by
  unfold digestList
  rw [digest_serializer c h1 h2 hb]
  apply List.ext_getElem
  · simp only [List.length_map, List.length_range, List.length_append,
      List.length_replicate, show processedBytesPerFrame = 12150 from rfl]
    omega
  · intro i hi1 hi2
    simp only [List.getElem_map, List.getElem_range]
    by_cases hic : i < c.length
    · rw [if_pos hic, List.getElem_append_left hic, List.getD_eq_getElem c 0 hic]
    · rw [if_neg hic, List.getElem_append_right (by omega), List.getElem_replicate]

/-! ### Ordered insertion -/

theorem goSearch_cons (k : Nat) (ks : List Nat) (f : Nat) :
    goSearch (k :: ks) f = if f ≤ k then 0 else goSearch ks f + 1 := by
  unfold goSearch
  rw [List.findIdx_cons]
  by_cases h : f ≤ k
  · simp [h]
  · simp [h]

theorem insertSorted_nil (f : Nat) : insertSorted [] f = [f] := rfl

theorem insertSorted_cons (k : Nat) (ks : List Nat) (f : Nat) :
    insertSorted (k :: ks) f = if f ≤ k then f :: k :: ks else k :: insertSorted ks f := by
  unfold insertSorted
  rw [goSearch_cons]
  by_cases h : f ≤ k
  · simp [h]
  · simp [h]

theorem mem_insertSorted (keys : List Nat) (f a : Nat) :
    a ∈ insertSorted keys f ↔ a = f ∨ a ∈ keys := by
  induction keys with
  | nil => simp [insertSorted_nil]
  | cons k ks ih =>
    rw [insertSorted_cons]
    by_cases h : f ≤ k
    · rw [if_pos h]
      simp
    · rw [if_neg h]
      simp only [List.mem_cons, ih]
      tauto

theorem length_insertSorted (keys : List Nat) (f : Nat) :
    (insertSorted keys f).length = keys.length + 1 := by
  unfold insertSorted
  rw [List.length_append, List.length_take, List.length_cons, List.length_drop]
  have hle : goSearch keys f ≤ keys.length := by
    unfold goSearch
    exact List.findIdx_le_length _
  omega

theorem sorted_insertSorted (keys : List Nat) (f : Nat) (hs : keys.Sorted (· < ·))
    (hf : f ∉ keys) : (insertSorted keys f).Sorted (· < ·) := by
  induction keys with
  | nil => simp [insertSorted_nil]
  | cons k ks ih =>
    rw [insertSorted_cons]
    rw [List.sorted_cons] at hs
    by_cases h : f ≤ k
    · have hfk : f < k := lt_of_le_of_ne h (fun he => hf (he ▸ List.mem_cons_self k ks))
      rw [if_pos h, List.sorted_cons]
      refine ⟨?_, ?_⟩
      · intro b hb
        rcases List.mem_cons.mp hb with rfl | hb
        · exact hfk
        · exact lt_trans hfk (hs.1 b hb)
      · rw [List.sorted_cons]
        exact hs
    · push_neg at h
      rw [if_neg (by omega), List.sorted_cons]
      refine ⟨?_, ih hs.2 (fun hm => hf (List.mem_cons_of_mem k hm))⟩
      intro b hb
      rcases (mem_insertSorted ks f b).mp hb with rfl | hb
      · exact h
      · exact hs.1 b hb

/-! ### Emitter invariant preservation -/

theorem emitDrain_inv (past : List Nat) :
    ∀ (keys : List Nat) (buffer : Nat → Option (List Nat)) (keysLen wantedID : Nat)
      (out : List (List Nat)) (b2 : Nat → Option (List Nat)) (k2 : List Nat)
      (l2 w2 : Nat) (o2 : List (List Nat)),
      keysLen = keys.length →
      keys.Sorted (· < ·) →
      (∀ k, k ∈ keys ↔ (buffer k).isSome) →
      (∀ k ∈ keys, wantedID ≤ k) →
      (∀ j, j < wantedID → j ∈ past) →
      (∀ k ∈ keys, k ∈ past) →
      emitDrain buffer keys keysLen wantedID out = (b2, k2, l2, w2, o2) →
      l2 = k2.length ∧ k2.Sorted (· < ·) ∧ (∀ k, k ∈ k2 ↔ (b2 k).isSome) ∧
        (∀ k ∈ k2, w2 < k) ∧ (∀ j, j < w2 → j ∈ past) ∧ (∀ k ∈ k2, k ∈ past) := by
  intro keys
  induction keys with
  | nil =>
    intro buffer keysLen wantedID out b2 k2 l2 w2 o2 h0 h1 h2 h3 h4 h5 heq
    unfold emitDrain at heq
    cases heq
    exact ⟨h0, h1, h2, by simp, h4, h5⟩
  | cons k ks ih =>
    intro buffer keysLen wantedID out b2 k2 l2 w2 o2 h0 h1 h2 h3 h4 h5 heq
    unfold emitDrain at heq
    rw [List.sorted_cons] at h1
    by_cases hk : k = wantedID
    · rw [if_pos hk] at heq
      refine ih _ _ _ _ b2 k2 l2 w2 o2 (by simp at h0; omega) h1.2 ?_ ?_ ?_ ?_ heq
      · intro x
        by_cases hx : x = wantedID
        · subst hx
          constructor
          · intro hmem
            exact absurd (h1.1 _ hmem) (by omega)
          · simp
        · rw [if_neg hx]
          rw [← h2 x]
          subst hk
          simp [List.mem_cons, hx]
      · intro x hx
        have := h1.1 x hx
        omega
      · intro j hj
        rcases Nat.lt_or_ge j wantedID with hlt | hge
        · exact h4 j hlt
        · have : j = wantedID := by omega
          subst this
          exact hk ▸ h5 k (List.mem_cons_self k ks)
      · intro x hx
        exact h5 x (List.mem_cons_of_mem k hx)
    · rw [if_neg hk] at heq
      cases heq
      refine ⟨h0, List.sorted_cons.mpr h1, h2, ?_, h4, h5⟩
      intro x hx
      rcases List.mem_cons.mp hx with rfl | hx
      · have := h3 x (List.mem_cons_self x ks)
        omega
      · have hkx := h1.1 x hx
        have := h3 k (List.mem_cons_self k ks)
        omega

theorem emitStep_inv (st : EmitSt) (f : frameData) (past : List Nat)
    (hinv : EmitInv st past) (hnew : f.frameID ∉ past) :
    EmitInv (emitStep st f) (past ++ [f.frameID]) := by
  obtain ⟨h0, h1, h2, h3, h4, h5⟩ := hinv
  have hpast : ∀ j, j ∈ past → j ∈ past ++ [f.frameID] := fun j hj => List.mem_append_left _ hj
  unfold emitStep
  by_cases hid : f.frameID = st.wantedID
  · rw [if_pos hid]
    by_cases hkl : st.keysLen = 0
    · rw [if_pos hkl]
      have hkeys : st.keys = [] := List.eq_nil_of_length_eq_zero (by omega)
      refine ⟨h0, h1, h2, ?_, ?_, fun k hk => hpast k (h5 k hk)⟩
      · intro k hk
        rw [hkeys] at hk
        cases hk
      · intro j hj
        have hj2 : j < st.wantedID + 1 := hj
        rcases Nat.lt_or_ge j st.wantedID with hlt | hge
        · exact hpast j (h4 j hlt)
        · have : j = f.frameID := by omega
          subst this
          exact List.mem_append_right _ (List.mem_singleton.mpr rfl)
    · rw [if_neg hkl]
      have hd := emitDrain_inv (past ++ [f.frameID]) st.keys st.buffer st.keysLen
        (st.wantedID + 1) (st.out ++ [f.value])
      rcases hdr : emitDrain st.buffer st.keys st.keysLen (st.wantedID + 1)
        (st.out ++ [f.value]) with ⟨b2, k2, l2, w2, o2⟩
      have := hd b2 k2 l2 w2 o2 h0 h1 h2
        (fun k hk => by have := h3 k hk; omega)
        (fun j hj => by
          rcases Nat.lt_or_ge j st.wantedID with hlt | hge
          · exact hpast j (h4 j hlt)
          · have : j = f.frameID := by omega
            subst this
            exact List.mem_append_right _ (List.mem_singleton.mpr rfl))
        (fun k hk => hpast k (h5 k hk)) hdr
      exact this
  · rw [if_neg hid]
    have hfk : f.frameID ∉ st.keys := fun hm => hnew (h5 _ hm)
    have hge : st.wantedID < f.frameID := by
      rcases Nat.lt_or_ge f.frameID st.wantedID with hlt | hge2
      · exact absurd (h4 _ hlt) hnew
      · omega
    refine ⟨?_, sorted_insertSorted _ _ h1 hfk, ?_, ?_, fun j hj => hpast j (h4 j hj), ?_⟩
    · simp only [length_insertSorted]
      omega
    · intro x
      rw [mem_insertSorted]
      by_cases hx : x = f.frameID
      · subst hx
        simp
      · simp only [hx, false_or, if_neg hx]
        exact h2 x
    · intro x hx
      rcases (mem_insertSorted _ _ _).mp hx with rfl | hx
      · exact hge
      · exact h3 x hx
    · intro x hx
      rcases (mem_insertSorted _ _ _).mp hx with rfl | hx
      · exact List.mem_append_right _ (List.mem_singleton.mpr rfl)
      · exact hpast x (h5 x hx)

theorem emitRun_inv_aux :
    ∀ (frames : List frameData) (st : EmitSt) (past : List Nat),
      EmitInv st past →
      (∀ g ∈ frames, frameData.frameID g ∉ past) →
      (frames.map frameData.frameID).Nodup →
      EmitInv (frames.foldl emitStep st) (past ++ frames.map frameData.frameID) := by
  intro frames
  induction frames with
  | nil =>
    intro st past hinv _ _
    simpa using hinv
  | cons g gs ih =>
    intro st past hinv hdisj hnd
    rw [List.foldl_cons]
    rw [List.map_cons, List.nodup_cons] at hnd
    have h1 := emitStep_inv st g past hinv (hdisj g (List.mem_cons_self g gs))
    have h2 := ih (emitStep st g) (past ++ [g.frameID]) h1
      (fun x hx => by
        intro hmem
        rcases List.mem_append.mp hmem with hp | hs
        · exact hdisj x (List.mem_cons_of_mem g hx) hp
        · exact hnd.1 (List.mem_singleton.mp hs ▸ List.mem_map_of_mem frameData.frameID hx))
      hnd.2
    rw [List.map_cons]
    rw [show past ++ g.frameID :: List.map frameData.frameID gs =
      (past ++ [g.frameID]) ++ List.map frameData.frameID gs from by simp]
    exact h2

theorem emitRun_inv (frames : List frameData)
    (hnd : (frames.map frameData.frameID).Nodup) :
    EmitInv (emitRun frames) (frames.map frameData.frameID) := by
  have h0 : EmitInv ⟨[], fun _ => none, [], 0, 0⟩ [] := by
    refine ⟨rfl, List.sorted_nil, ?_, ?_, ?_, ?_⟩
    · intro k
      simp
    · intro k hk
      cases hk
    · intro j hj
      exact absurd hj (Nat.not_lt_zero j)
    · intro k hk
      cases hk
  have := emitRun_inv_aux frames _ [] h0 (fun g _ => List.not_mem_nil _) hnd
  simpa [emitRun] using this

/-! ### Writer invariant preservation -/

theorem writeDrain_inv (past : List Nat) :
    ∀ (keys : List Nat) (file : GoFile) (buffer : Nat → Option (List Nat))
      (keysLen wantedID nextWriteByte : Nat) (f2 : GoFile)
      (b2 : Nat → Option (List Nat)) (k2 : List Nat) (l2 w2 n2 : Nat),
      keysLen = keys.length →
      keys.Sorted (· < ·) →
      (∀ k, k ∈ keys ↔ (buffer k).isSome) →
      (∀ k ∈ keys, wantedID ≤ k) →
      (∀ j, j < wantedID → j ∈ past) →
      (∀ k ∈ keys, k ∈ past) →
      writeDrain file buffer keys keysLen wantedID nextWriteByte =
        (f2, b2, k2, l2, w2, n2) →
      l2 = k2.length ∧ k2.Sorted (· < ·) ∧ (∀ k, k ∈ k2 ↔ (b2 k).isSome) ∧
        (∀ k ∈ k2, w2 < k) ∧ (∀ j, j < w2 → j ∈ past) ∧ (∀ k ∈ k2, k ∈ past) := by
  intro keys
  induction keys with
  | nil =>
    intro file buffer keysLen wantedID nextWriteByte f2 b2 k2 l2 w2 n2 h0 h1 h2 h3 h4 h5 heq
    unfold writeDrain at heq
    cases heq
    exact ⟨h0, h1, h2, by simp, h4, h5⟩
  | cons k ks ih =>
    intro file buffer keysLen wantedID nextWriteByte f2 b2 k2 l2 w2 n2 h0 h1 h2 h3 h4 h5 heq
    unfold writeDrain at heq
    rw [List.sorted_cons] at h1
    by_cases hk : k = wantedID
    · rw [if_pos hk] at heq
      refine ih _ _ _ _ _ f2 b2 k2 l2 w2 n2 (by simp at h0; omega) h1.2 ?_ ?_ ?_ ?_ heq
      · intro x
        by_cases hx : x = wantedID
        · subst hx
          constructor
          · intro hmem
            exact absurd (h1.1 _ hmem) (by omega)
          · simp
        · rw [if_neg hx]
          rw [← h2 x]
          subst hk
          simp [List.mem_cons, hx]
      · intro x hx
        have := h1.1 x hx
        omega
      · intro j hj
        rcases Nat.lt_or_ge j wantedID with hlt | hge
        · exact h4 j hlt
        · have : j = wantedID := by omega
          subst this
          exact hk ▸ h5 k (List.mem_cons_self k ks)
      · intro x hx
        exact h5 x (List.mem_cons_of_mem k hx)
    · rw [if_neg hk] at heq
      cases heq
      refine ⟨h0, List.sorted_cons.mpr h1, h2, ?_, h4, h5⟩
      intro x hx
      rcases List.mem_cons.mp hx with rfl | hx
      · have := h3 x (List.mem_cons_self x ks)
        omega
      · have hkx := h1.1 x hx
        have := h3 k (List.mem_cons_self k ks)
        omega

theorem writeStep_inv (st : WriteSt) (f : frameData) (past : List Nat)
    (hinv : WriteInv st past) (hnew : f.frameID ∉ past) :
    ∀ st2, writeStep st f = some st2 → WriteInv st2 (past ++ [f.frameID]) := by
  obtain ⟨h0, h1, h2, h3, h4, h5, h6⟩ := hinv
  have hpast : ∀ j, j ∈ past → j ∈ past ++ [f.frameID] := fun j hj => List.mem_append_left _ hj
  have hself : f.frameID ∈ past ++ [f.frameID] :=
    List.mem_append_right _ (List.mem_singleton.mpr rfl)
  have hins : st.wantedID ≤ f.frameID →
      WriteInv { st with
        buffer := fun j => if j = f.frameID then some f.value else st.buffer j
        keys := insertSorted st.keys f.frameID
        keysLen := st.keysLen + 1 } (past ++ [f.frameID]) := by
    intro hgew
    have hfk : f.frameID ∉ st.keys := fun hm => hnew (h5 _ hm)
    refine ⟨?_, sorted_insertSorted _ _ h1 hfk, ?_, ?_, ?_, ?_, h6⟩
    · show st.keysLen + 1 = (insertSorted st.keys f.frameID).length
      rw [length_insertSorted]
      omega
    · intro x
      show x ∈ insertSorted st.keys f.frameID ↔ _
      rw [mem_insertSorted]
      by_cases hx : x = f.frameID
      · subst hx
        simp
      · simp only [hx, false_or, if_neg hx]
        exact h2 x
    · intro x hx
      rcases (mem_insertSorted _ _ _).mp hx with rfl | hx
      · exact hgew
      · exact h3 x hx
    · intro hg0 j hj
      exact hpast j (h4 hg0 j hj)
    · intro x hx
      rcases (mem_insertSorted _ _ _).mp hx with rfl | hx
      · exact hself
      · exact hpast x (h5 x hx)
  intro st2 hstep
  unfold writeStep at hstep
  by_cases hg0 : st.gotFrame0 = false
  · rw [if_pos (by rw [hg0])] at hstep
    by_cases hf0 : f.frameID ≠ 0
    · rw [if_pos hf0] at hstep
      cases hstep
      apply hins
      rw [h6 hg0]
      omega
    · rw [if_neg hf0] at hstep
      push_neg at hf0
      simp only [] at hstep
      by_cases hlen : beUint64 (f.value.take 8) < processedBytesPerFrame - 8
      · rw [if_pos hlen] at hstep
        rcases hgs : goSlice f.value 8 (beUint64 (f.value.take 8)) with _ | sl
        · rw [hgs] at hstep
          cases hstep
        · rw [hgs] at hstep
          cases hstep
          refine ⟨h0, h1, h2, h3, ?_, fun k hk => hpast k (h5 k hk), ?_⟩
          · intro _ j hj
            have hj2 : j < st.wantedID := hj
            rw [h6 hg0] at hj2
            have : j = 0 := by omega
            subst this
            rw [← hf0]
            exact hself
          · intro hcontra
            cases hcontra
      · rw [if_neg hlen] at hstep
        cases hstep
        refine ⟨h0, h1, h2, h3, ?_, fun k hk => hpast k (h5 k hk), ?_⟩
        · intro _ j hj
          have hj2 : j < st.wantedID := hj
          rw [h6 hg0] at hj2
          have : j = 0 := by omega
          subst this
          rw [← hf0]
          exact hself
        · intro hcontra
          cases hcontra
  · rw [if_neg hg0] at hstep
    have hg0t : st.gotFrame0 = true := by
      cases hgf : st.gotFrame0
      · exact absurd hgf hg0
      · rfl
    by_cases hid : f.frameID = st.wantedID
    · rw [if_pos hid] at hstep
      have hwnew : ∀ x ∈ st.keys, st.wantedID + 1 ≤ x := by
        intro x hx
        have hx3 := h3 x hx
        have : x ≠ st.wantedID := by
          intro he
          exact hnew (hid ▸ he ▸ h5 x hx)
        omega
      simp only [] at hstep
      split at hstep
      · cases hstep
      next v hv =>
        by_cases hkl : st.keysLen = 0
        · rw [if_pos hkl] at hstep
          cases hstep
          have hkeys : st.keys = [] := List.eq_nil_of_length_eq_zero (by omega)
          refine ⟨h0, h1, h2, ?_, ?_, fun k hk => hpast k (h5 k hk), ?_⟩
          · intro k hk
            rw [hkeys] at hk
            cases hk
          · intro _ j hj
            have hj2 : j < st.wantedID + 1 := hj
            rcases Nat.lt_or_ge j st.wantedID with hlt | hge
            · exact hpast j (h4 hg0t j hlt)
            · have : j = f.frameID := by omega
              subst this
              exact hself
          · intro hcontra
            rw [hg0t] at hcontra
            cases hcontra
        · rw [if_neg hkl] at hstep
          rcases hdr : writeDrain (fileWriteAt st.file v st.nextWriteByte) st.buffer st.keys
            st.keysLen (st.wantedID + 1) (st.nextWriteByte + processedBytesPerFrame)
            with ⟨f2, b2, k2, l2, w2, n2⟩
          rw [hdr] at hstep
          cases hstep
          have hd := writeDrain_inv (past ++ [f.frameID]) st.keys
            (fileWriteAt st.file v st.nextWriteByte) st.buffer st.keysLen
            (st.wantedID + 1) (st.nextWriteByte + processedBytesPerFrame)
            f2 b2 k2 l2 w2 n2 h0 h1 h2 hwnew
            (fun j hj => by
              rcases Nat.lt_or_ge j st.wantedID with hlt | hge
              · exact hpast j (h4 hg0t j hlt)
              · have : j = f.frameID := by omega
                subst this
                exact hself)
            (fun k hk => hpast k (h5 k hk)) hdr
          obtain ⟨d0, d1, d2, d3, d4, d5⟩ := hd
          refine ⟨d0, d1, d2, fun k hk => Nat.le_of_lt (d3 k hk), ?_, d5, ?_⟩
          · intro _ j hj
            exact d4 j hj
          · intro hcontra
            rw [hg0t] at hcontra
            cases hcontra
    · rw [if_neg hid] at hstep
      cases hstep
      apply hins
      rcases Nat.lt_or_ge f.frameID st.wantedID with hlt | hge
      · exact absurd (h4 hg0t _ hlt) hnew
      · omega

theorem writeRun_inv_aux :
    ∀ (frames : List frameData) (st : WriteSt) (past : List Nat),
      WriteInv st past →
      (∀ g ∈ frames, frameData.frameID g ∉ past) →
      (frames.map frameData.frameID).Nodup →
      ∀ st2, frames.foldlM writeStep st = some st2 →
        WriteInv st2 (past ++ frames.map frameData.frameID) := by
  intro frames
  induction frames with
  | nil =>
    intro st past hinv _ _ st2 hrun
    cases hrun
    simpa using hinv
  | cons g gs ih =>
    intro st past hinv hdisj hnd st2 hrun
    rw [List.map_cons, List.nodup_cons] at hnd
    rw [List.foldlM_cons] at hrun
    rcases hg : writeStep st g with _ | st1
    · rw [hg] at hrun
      cases hrun
    · rw [hg] at hrun
      have h1 := writeStep_inv st g past hinv (hdisj g (List.mem_cons_self g gs)) st1 hg
      have h2 := ih st1 (past ++ [g.frameID]) h1
        (fun x hx => by
          intro hmem
          rcases List.mem_append.mp hmem with hp | hs
          · exact hdisj x (List.mem_cons_of_mem g hx) hp
          · exact hnd.1
              (List.mem_singleton.mp hs ▸ List.mem_map_of_mem frameData.frameID hx))
        hnd.2 st2 hrun
      rw [List.map_cons]
      rw [show past ++ g.frameID :: List.map frameData.frameID gs =
        (past ++ [g.frameID]) ++ List.map frameData.frameID gs from by simp]
      exact h2

theorem writeRun_inv (frames : List frameData)
    (hnd : (frames.map frameData.frameID).Nodup) :
    ∀ st2, writeRun frames = some st2 →
      WriteInv st2 (frames.map frameData.frameID) := by
  intro st2 hrun
  have h0 : WriteInv writeInit [] := by
    refine ⟨rfl, List.sorted_nil, ?_, ?_, ?_, ?_, fun _ => rfl⟩
    · intro k
      simp [writeInit]
    · intro k hk
      cases hk
    · intro hcontra j hj
      cases hcontra
    · intro k hk
      cases hk
  have := writeRun_inv_aux frames writeInit [] h0 (fun g _ => List.not_mem_nil _) hnd st2 hrun
  simpa using this

/-! ### Claim theorems for the reassembly engines (C9) -/

/-- C9 (counterexample): in the decode writer, after receiving only frame 1
(frame 0 still pending), the reorder buffer holds index 1 while the cursor
`wantedID` is also 1 — a buffered frame whose index does not exceed the
cursor, refuting the strict invariant as claimed. -/
theorem writer_buffered_index_equals_cursor :
    (writeRun [⟨1, [7]⟩]).map WriteSt.keys = some [1] ∧
    (writeRun [⟨1, [7]⟩]).map WriteSt.wantedID = some 1 ∧
    (writeRun [⟨1, [7]⟩]).map (fun st => st.keys.all (fun k => st.wantedID < k)) =
      some false := by
  refine ⟨rfl, rfl, rfl⟩

/-- C9 (amended): at every reachable state of the reassembly engines (any
completion order with pairwise-distinct frame indices), `keysLen` mirrors
the key list, the key list is strictly ascending, keys and buffer entries
correspond exactly, and every buffered index is at least the cursor
`wantedID` — strictly greater in the encode emitter, while in the decode
writer equality occurs only for frames buffered while frame 0 is pending. -/
theorem reorder_buffer_invariant (frames : List frameData)
    (hnd : (frames.map frameData.frameID).Nodup) :
    ((emitRun frames).keysLen = (emitRun frames).keys.length ∧
      (emitRun frames).keys.Sorted (· < ·) ∧
      (∀ k, k ∈ (emitRun frames).keys ↔ ((emitRun frames).buffer k).isSome) ∧
      (∀ k ∈ (emitRun frames).keys, (emitRun frames).wantedID < k)) ∧
    (∀ st, writeRun frames = some st →
      st.keysLen = st.keys.length ∧
      st.keys.Sorted (· < ·) ∧
      (∀ k, k ∈ st.keys ↔ (st.buffer k).isSome) ∧
      (∀ k ∈ st.keys, st.wantedID ≤ k)) := by
  constructor
  · obtain ⟨e0, e1, e2, e3, -, -⟩ := emitRun_inv frames hnd
    exact ⟨e0, e1, e2, e3⟩
  · intro st hst
    obtain ⟨w0, w1, w2, w3, -, -, -⟩ := writeRun_inv frames hnd st hst
    exact ⟨w0, w1, w2, w3⟩

theorem reorder_buffer_invariant_witness :
    ((([⟨1, [7]⟩] : List frameData).map frameData.frameID).Nodup) ∧
    (((emitRun [⟨1, [7]⟩]).keysLen = (emitRun [⟨1, [7]⟩]).keys.length ∧
      (emitRun [⟨1, [7]⟩]).keys.Sorted (· < ·) ∧
      (∀ k, k ∈ (emitRun [⟨1, [7]⟩]).keys ↔ ((emitRun [⟨1, [7]⟩]).buffer k).isSome) ∧
      (∀ k ∈ (emitRun [⟨1, [7]⟩]).keys, (emitRun [⟨1, [7]⟩]).wantedID < k)) ∧
    (∀ st, writeRun [⟨1, [7]⟩] = some st →
      st.keysLen = st.keys.length ∧
      st.keys.Sorted (· < ·) ∧
      (∀ k, k ∈ st.keys ↔ (st.buffer k).isSome) ∧
      (∀ k ∈ st.keys, st.wantedID ≤ k))) :=
  ⟨by decide, reorder_buffer_invariant [⟨1, [7]⟩] (by decide)⟩

/-! ### Claim theorem for the frame-0 slice (C10) -/

/-- C10: in the decode writer's frame-0 handling, when the recorded length
is below `processedBytesPerFrame - 8` the code evaluates the slice
`frameValue[8:lengthInt]`; that slice (hence the whole step) is well-defined
iff `lengthInt ≥ 8` — for `lengthInt < 8` (e.g. an empty original file) the
slice bounds are inverted and the step panics. -/
theorem frame0_write_defined_iff (v : List Nat) (hlen : v.length = processedBytesPerFrame)
    (hsmall : beUint64 (v.take 8) < processedBytesPerFrame - 8) :
    (writeStep writeInit ⟨0, v⟩ = none ↔ beUint64 (v.take 8) < 8) := by
  have hp : processedBytesPerFrame = 12150 := rfl
  have hgs : goSlice v 8 (beUint64 (v.take 8)) = none ↔ beUint64 (v.take 8) < 8 := by
    unfold goSlice
    by_cases h8 : 8 ≤ beUint64 (v.take 8)
    · rw [if_pos ⟨h8, by rw [hlen]; omega⟩]
      constructor
      · intro hcontra
        cases hcontra
      · intro hlt
        omega
    · rw [if_neg (fun hx => h8 hx.1)]
      constructor
      · intro _
        omega
      · intro _
        rfl
  unfold writeStep
  rw [if_pos (show writeInit.gotFrame0 = false from rfl)]
  rw [if_neg (show ¬((⟨0, v⟩ : frameData).frameID ≠ 0) from by simp)]
  simp only []
  rw [if_pos hsmall]
  rcases hg : goSlice v 8 (beUint64 (v.take 8)) with _ | sl
  · exact iff_of_true rfl (hgs.mp hg)
  · refine iff_of_false (fun hcontra => Option.noConfusion hcontra) ?_
    intro hlt
    exact Option.noConfusion (hg ▸ hgs.mpr hlt)

theorem frame0_write_defined_iff_witness :
    (List.replicate 12150 0).length = processedBytesPerFrame ∧
    beUint64 ((List.replicate 12150 0).take 8) < processedBytesPerFrame - 8 ∧
    (writeStep writeInit ⟨0, List.replicate 12150 0⟩ = none ↔
      beUint64 ((List.replicate 12150 0).take 8) < 8) :=
  ⟨by rw [List.length_replicate]; rfl, by rw [List.take_replicate]; decide,
    frame0_write_defined_iff _ (by rw [List.length_replicate]; rfl)
      (by rw [List.take_replicate]; decide)⟩

/-! ### Writer step computation lemmas for concrete scenarios -/

theorem writeStep_frame0_panic (st : WriteSt) (v : List Nat) (hg : st.gotFrame0 = false)
    (hlt : beUint64 (v.take 8) < processedBytesPerFrame - 8)
    (hsl : goSlice v 8 (beUint64 (v.take 8)) = none) :
    writeStep st ⟨0, v⟩ = none := by
  unfold writeStep
  rw [if_pos hg, if_neg (show ¬((⟨0, v⟩ : frameData).frameID ≠ 0) from by simp)]
  simp only []
  rw [if_pos hlt, hsl]

theorem writeStep_frame0_lt (st : WriteSt) (v sl : List Nat) (hg : st.gotFrame0 = false)
    (hlt : beUint64 (v.take 8) < processedBytesPerFrame - 8)
    (hsl : goSlice v 8 (beUint64 (v.take 8)) = some sl) :
    writeStep st ⟨0, v⟩ = some { st with
      gotFrame0 := true
      file := fileWriteAt (fileTruncate st.file (beUint64 (v.take 8))) sl 0
      lengthInt := beUint64 (v.take 8)
      lastFrameOffset := ((beUint64 (v.take 8) : Int) - 12142).tmod 12150 } := by
  unfold writeStep
  rw [if_pos hg, if_neg (show ¬((⟨0, v⟩ : frameData).frameID ≠ 0) from by simp)]
  simp only []
  rw [if_pos hlt, hsl]

theorem writeStep_frame0_ge (st : WriteSt) (v : List Nat) (hg : st.gotFrame0 = false)
    (hge : ¬(beUint64 (v.take 8) < processedBytesPerFrame - 8)) :
    writeStep st ⟨0, v⟩ = some { st with
      gotFrame0 := true
      file := fileWriteAt (fileTruncate st.file (beUint64 (v.take 8))) (v.drop 8) 0
      lengthInt := beUint64 (v.take 8)
      lastFrameOffset := ((beUint64 (v.take 8) : Int) - 12142).tmod 12150 } := by
  unfold writeStep
  rw [if_pos hg, if_neg (show ¬((⟨0, v⟩ : frameData).frameID ≠ 0) from by simp)]
  simp only []
  rw [if_neg hge]

theorem writeStep_phase1_buffer (st : WriteSt) (i : Nat) (v : List Nat)
    (hg : st.gotFrame0 = false) (hi : i ≠ 0) :
    writeStep st ⟨i, v⟩ = some { st with
      buffer := fun j => if j = i then some v else st.buffer j
      keys := insertSorted st.keys i
      keysLen := st.keysLen + 1 } := by
  unfold writeStep
  rw [if_pos hg, if_pos (show ((⟨i, v⟩ : frameData).frameID ≠ 0) from hi)]

theorem writeStep_match_last (st : WriteSt) (i : Nat) (v tv : List Nat)
    (hg : st.gotFrame0 = true) (hkl : st.keysLen = 0) (hi : i = st.wantedID)
    (hlast : i = ceilFrames st.lengthInt - 1)
    (htv : goTakeInt v st.lastFrameOffset = some tv) :
    writeStep st ⟨i, v⟩ = some { st with
      file := fileWriteAt st.file tv st.nextWriteByte
      nextWriteByte := st.nextWriteByte + processedBytesPerFrame
      wantedID := st.wantedID + 1 } := by
  unfold writeStep
  rw [if_neg (show ¬(st.gotFrame0 = false) from by rw [hg]; simp)]
  rw [if_pos (show ((⟨i, v⟩ : frameData).frameID = st.wantedID) from hi)]
  simp only []
  rw [if_pos (show ((⟨i, v⟩ : frameData).frameID = ceilFrames st.lengthInt - 1)
    from hlast), htv]
  simp only []
  rw [if_pos hkl]

/-! ### File-model and chunking evaluation lemmas -/

theorem optionBind_some {α β : Type} (a : α) (f : α → Option β) :
    (some a >>= f) = f a := rfl

theorem optionMap_some {α β : Type} (f : α → β) (a : α) :
    Option.map f (some a) = some (f a) := rfl

theorem fileWriteAt_size (f : GoFile) (bs : List Nat) (off : Nat) :
    (fileWriteAt f bs off).size = max f.size (off + bs.length) := rfl

theorem fileTruncate_size (f : GoFile) (n : Nat) : (fileTruncate f n).size = n := rfl

theorem fileWriteAt_data_in (f : GoFile) (bs : List Nat) (off a : Nat)
    (h : off ≤ a ∧ a < off + bs.length) :
    (fileWriteAt f bs off).data a = bs.getD (a - off) 0 := by
  unfold fileWriteAt
  exact if_pos h

theorem fileWriteAt_data_out (f : GoFile) (bs : List Nat) (off a : Nat)
    (h : ¬(off ≤ a ∧ a < off + bs.length)) :
    (fileWriteAt f bs off).data a = f.data a := by
  unfold fileWriteAt
  exact if_neg h

theorem fileTruncate_data_lt (f : GoFile) (n a : Nat) (h : a < n) :
    (fileTruncate f n).data a = f.data a := by
  unfold fileTruncate
  exact if_pos h

theorem chunkLoop_step (fuel : Nat) (l : List Nat) (hf : fuel ≠ 0) (hl : l ≠ []) :
    chunkLoop fuel l =
      l.take processedBytesPerFrame ::
        chunkLoop (fuel - 1) (l.drop processedBytesPerFrame) := by
  cases fuel with
  | zero => exact absurd rfl hf
  | succ f =>
    cases l with
    | nil => exact absurd rfl hl
    | cons x xs => rfl

theorem chunkLoop_nil (fuel : Nat) : chunkLoop fuel [] = [] := by
  cases fuel <;> rfl

/-! ### Pipeline bug scenarios (C1, C6, C8) -/

/-- C6: length exactness fails at L = 0.  Decoding the encoding of the empty
file panics — the frame-0 handler evaluates `frameValue[8:0]`, a slice with
inverted bounds — so no output file (of length 0 or otherwise) is produced. -/
theorem roundTrip_empty_panics : roundTrip [] = none := by
  have h2 := digestList_serializer c6Chunk (by decide) (by decide) (by decide)
  have hl : (12150 - c6Chunk.length) = 12142 := by decide
  rw [hl] at h2
  have hv : c6Chunk ++ List.replicate 12142 0 = c6Value := rfl
  rw [hv] at h2
  have h1 : roundTrip [] = (writerFile [⟨0, c6Value⟩]).map fileBytes := by
    unfold roundTrip decodeFromPixels encodePixels
    rw [show encodeFrames [] = [c6Chunk] from by decide]
    show (writerFile [⟨0, digestList (frameDigester (rgb24 (serializer c6Chunk)))⟩]).map
      fileBytes = _
    rw [h2]
  rw [h1]
  decide

/-- C8: the 1-byte scenario fails.  Encoding [0x41] yields exactly one frame
as claimed, but decoding it panics in the frame-0 framing logic
(`frameValue[8:1]`, inverted slice bounds), instead of reconstructing
[0x41]. -/
theorem roundTrip_one_byte_panics :
    (encodeFrames [0x41]).length = 1 ∧ roundTrip [0x41] = none := by
  refine ⟨by decide, ?_⟩
  have h2 := digestList_serializer c8Chunk (by decide) (by decide) (by decide)
  have hl : (12150 - c8Chunk.length) = 12141 := by decide
  rw [hl] at h2
  have hv : c8Chunk ++ List.replicate 12141 0 = c8Value := rfl
  rw [hv] at h2
  have h1 : roundTrip [0x41] = (writerFile [⟨0, c8Value⟩]).map fileBytes := by
    unfold roundTrip decodeFromPixels encodePixels
    rw [show encodeFrames [0x41] = [c8Chunk] from by decide]
    show (writerFile [⟨0, digestList (frameDigester (rgb24 (serializer c8Chunk)))⟩]).map
      fileBytes = _
    rw [h2]
  rw [h1]
  decide

/-- C1: decode(encode(B)) fails to reconstruct B.  For the 8-byte input
[1..8] the whole pipeline completes without error but the frame-0 handler
writes `frameValue[8:8]` (the empty slice) instead of the 8 payload bytes,
so the reconstructed file is 8 zero bytes. -/
theorem roundTrip_not_identity :
    roundTrip [1, 2, 3, 4, 5, 6, 7, 8] = some (List.replicate 8 0) ∧
    (List.replicate 8 0 : List Nat) ≠ [1, 2, 3, 4, 5, 6, 7, 8] := by
  refine ⟨?_, by decide⟩
  have h2 := digestList_serializer c1Chunk (by decide) (by decide) (by decide)
  have hl : (12150 - c1Chunk.length) = 12134 := by decide
  rw [hl] at h2
  have hv : c1Chunk ++ List.replicate 12134 0 = c1Value := rfl
  rw [hv] at h2
  have h1 : roundTrip [1, 2, 3, 4, 5, 6, 7, 8] =
      (writerFile [⟨0, c1Value⟩]).map fileBytes := by
    unfold roundTrip decodeFromPixels encodePixels
    rw [show encodeFrames [1, 2, 3, 4, 5, 6, 7, 8] = [c1Chunk] from by decide]
    show (writerFile [⟨0, digestList (frameDigester (rgb24 (serializer c1Chunk)))⟩]).map
      fileBytes = _
    rw [h2]
  rw [h1]
  have hlen : c1Value.length = 12150 := by
    unfold c1Value
    rw [List.length_append, List.length_replicate,
      show c1Chunk.length = 16 from by decide]
  have hbe : beUint64 (c1Value.take 8) = 8 := by decide
  have hsl : goSlice c1Value 8 (beUint64 (c1Value.take 8)) = some [] := by
    rw [hbe]
    unfold goSlice
    rw [if_pos ⟨by omega, by rw [hlen]; omega⟩]
    rfl
  have hstep := writeStep_frame0_lt writeInit c1Value [] rfl (by rw [hbe]; decide) hsl
  unfold writerFile writeRun
  rw [List.foldlM_cons, hstep]
  decide

/-! ### Reassembly order dependence (C2) -/

/-- C2: the decode writer's output is not independent of the order in which
completed frames arrive.  For a 12150-byte original spanning frames 0 and 1
(frame 1 carrying the last 8 payload bytes, the first of them 42), in-order
arrival writes 42 at file offset 12142; with arrival order [1, 0] frame 1
is buffered before frame 0 and nothing afterwards triggers the
post-frame-0 drain, so it is never written and the byte reads 0. -/
theorem writer_output_depends_on_order :
    (writerFile [⟨0, c2f0v⟩, ⟨1, c2f1v⟩]).map (fun fl => fl.data 12142) = some 42 ∧
    (writerFile [⟨1, c2f1v⟩, ⟨0, c2f0v⟩]).map (fun fl => fl.data 12142) = some 0 := by
  have hbe : beUint64 (c2f0v.take 8) = 12150 := by decide
  have hlen1 : c2f1v.length = 12150 := by
    unfold c2f1v
    rw [List.length_cons, List.length_replicate]
  have hstep0 := writeStep_frame0_ge writeInit c2f0v rfl (by rw [hbe]; decide)
  constructor
  · have htake1 : goTakeInt c2f1v (((beUint64 (c2f0v.take 8) : Int) - 12142).tmod 12150) =
        some (42 :: List.replicate 7 0) := by
      rw [hbe]
      rw [show (((12150 : Nat) : Int) - 12142).tmod 12150 = 8 from by decide]
      unfold goTakeInt
      rw [if_pos ⟨by decide, by rw [hlen1]; decide⟩]
      rw [show c2f1v.take (8 : Int).toNat = 42 :: List.replicate 7 0 from by decide]
    have hstep1 := writeStep_match_last
      { writeInit with
        gotFrame0 := true
        file := fileWriteAt (fileTruncate writeInit.file (beUint64 (c2f0v.take 8)))
          (c2f0v.drop 8) 0
        lengthInt := beUint64 (c2f0v.take 8)
        lastFrameOffset := ((beUint64 (c2f0v.take 8) : Int) - 12142).tmod 12150 }
      1 c2f1v (42 :: List.replicate 7 0) rfl rfl rfl (by decide) htake1
    unfold writerFile writeRun
    simp only [List.foldlM_cons, List.foldlM_nil]
    rw [hstep0]
    simp only [optionBind_some]
    rw [hstep1]
    simp only [optionBind_some]
    decide
  · have hstep1 := writeStep_phase1_buffer writeInit 1 c2f1v rfl (by decide)
    have hstep0' := writeStep_frame0_ge
      { writeInit with
        buffer := fun j => if j = 1 then some c2f1v else writeInit.buffer j
        keys := insertSorted writeInit.keys 1
        keysLen := writeInit.keysLen + 1 }
      c2f0v rfl (by rw [hbe]; decide)
    unfold writerFile writeRun
    simp only [List.foldlM_cons, List.foldlM_nil]
    rw [hstep1]
    simp only [optionBind_some]
    rw [hstep0']
    simp only [optionBind_some]
    have hdrop : c2f0v.drop 8 = List.replicate 12142 7 := rfl
    show some ((fileWriteAt (fileTruncate writeInit.file (beUint64 (c2f0v.take 8)))
        (c2f0v.drop 8) 0).data 12142) = some 0
    rw [fileWriteAt_data_out (fileTruncate writeInit.file (beUint64 (c2f0v.take 8)))
      (c2f0v.drop 8) 0 12142 (by rw [hdrop, List.length_replicate]; decide)]
    rw [fileTruncate_data_lt writeInit.file (beUint64 (c2f0v.take 8)) 12142
      (by rw [hbe]; decide)]
    decide

/-! ### Exact-multiple final frame (C7) -/

/-- C7: an input of exactly 2·12150 − 8 bytes (k = 2) is chunked into
exactly 2 frames as claimed, but decode does truncate the final frame:
`lastFrameOffset = (L − 12142) % 12150 = 0`, so the last frame writes
`frameValue[:0]` — nothing — and the reconstructed file (size L = 24292,
frame-0 payload intact at offset 0) reads 0 instead of the payload byte 3
at offsets 12142 and 24291. -/
theorem exact_multiple_truncates_final_frame :
    (encodeFrames (List.replicate 24292 3)).length = 2 ∧
    (decodeFromPixels (encodePixels (List.replicate 24292 3))).map
      (fun fl => (fl.size, fl.data 0, fl.data 12142, fl.data 24291)) =
      some (24292, 3, 0, 0) := by
  have henc : encodeFrames (List.replicate 24292 3) = [c7f0v, c7f1v] := by
    unfold encodeFrames rawFrames withHeader
    rw [List.length_replicate, List.length_append, List.length_replicate,
      show (putUint64BE 24292).length = 8 from by decide]
    rw [chunkLoop_step (8 + 24292) (putUint64BE 24292 ++ List.replicate 24292 3)
      (by decide) (by decide)]
    rw [List.take_append_eq_append_take, List.drop_append_eq_append_drop]
    rw [show (putUint64BE 24292).take processedBytesPerFrame = putUint64BE 24292
      from by decide]
    rw [show processedBytesPerFrame - (putUint64BE 24292).length = 12142 from by decide]
    rw [List.take_replicate, show min 12142 24292 = 12142 from by decide]
    rw [show (putUint64BE 24292).drop processedBytesPerFrame = ([] : List Nat)
      from by decide]
    rw [List.nil_append, List.drop_replicate,
      show (24292 - 12142 : Nat) = 12150 from by decide]
    rw [chunkLoop_step (8 + 24292 - 1) (List.replicate 12150 3) (by decide) (by decide)]
    rw [List.take_replicate, show min processedBytesPerFrame 12150 = 12150 from by decide]
    rw [List.drop_replicate, show (12150 - processedBytesPerFrame : Nat) = 0 from by decide]
    rw [List.replicate_zero, chunkLoop_nil]
    rfl
  have hlen0 : c7f0v.length = 12150 := by
    unfold c7f0v
    rw [List.length_append, List.length_replicate]
    decide
  have hlen1 : c7f1v.length = 12150 := by
    unfold c7f1v
    rw [List.length_replicate]
  have hb0 : ∀ x ∈ c7f0v, x < 256 := by
    intro x hx
    unfold c7f0v at hx
    rcases List.mem_append.mp hx with h | h
    · have hall : ∀ y ∈ putUint64BE 24292, y < 256 := by decide
      exact hall x h
    · rw [List.eq_of_mem_replicate h]
      decide
  have hb1 : ∀ x ∈ c7f1v, x < 256 := by
    intro x hx
    unfold c7f1v at hx
    rw [List.eq_of_mem_replicate hx]
    decide
  have hd0 : digestList (frameDigester (rgb24 (serializer c7f0v))) = c7f0v := by
    rw [digestList_serializer c7f0v (by rw [hlen0]; decide) (by rw [hlen0]) hb0]
    rw [hlen0]
    rw [show List.replicate (12150 - 12150) 0 = ([] : List Nat) from rfl]
    exact List.append_nil c7f0v
  have hd1 : digestList (frameDigester (rgb24 (serializer c7f1v))) = c7f1v := by
    rw [digestList_serializer c7f1v (by rw [hlen1]; decide) (by rw [hlen1]) hb1]
    rw [hlen1]
    rw [show List.replicate (12150 - 12150) 0 = ([] : List Nat) from rfl]
    exact List.append_nil c7f1v
  have h1 : decodeFromPixels (encodePixels (List.replicate 24292 3)) =
      writerFile [⟨0, c7f0v⟩, ⟨1, c7f1v⟩] := by
    unfold decodeFromPixels encodePixels
    rw [henc]
    show writerFile (indexFrames
      [digestList (frameDigester (rgb24 (serializer c7f0v))),
       digestList (frameDigester (rgb24 (serializer c7f1v)))] 0) = _
    rw [hd0, hd1]
    rfl
  have hbe7 : beUint64 (c7f0v.take 8) = 24292 := by decide
  have htake7 : goTakeInt c7f1v (((beUint64 (c7f0v.take 8) : Int) - 12142).tmod 12150) =
      some [] := by
    rw [hbe7]
    rw [show (((24292 : Nat) : Int) - 12142).tmod 12150 = 0 from by decide]
    unfold goTakeInt
    rw [if_pos ⟨le_refl 0, Int.natCast_nonneg _⟩]
    rfl
  have hdrop : c7f0v.drop 8 = List.replicate 12142 3 := rfl
  have hsize : (fileWriteAt (fileWriteAt (fileTruncate writeInit.file 24292)
      (List.replicate 12142 3) 0) [] 12142).size = 24292 := by
    rw [fileWriteAt_size, fileWriteAt_size, fileTruncate_size, List.length_nil,
      List.length_replicate]
    decide
  have hdata0 : (fileWriteAt (fileWriteAt (fileTruncate writeInit.file 24292)
      (List.replicate 12142 3) 0) [] 12142).data 0 = 3 := by
    rw [fileWriteAt_data_out (fileWriteAt (fileTruncate writeInit.file 24292)
      (List.replicate 12142 3) 0) [] 12142 0 (by decide)]
    rw [fileWriteAt_data_in (fileTruncate writeInit.file 24292)
      (List.replicate 12142 3) 0 0 ⟨Nat.le_refl 0, by rw [List.length_replicate]; decide⟩]
    decide
  have hdata1 : (fileWriteAt (fileWriteAt (fileTruncate writeInit.file 24292)
      (List.replicate 12142 3) 0) [] 12142).data 12142 = 0 := by
    rw [fileWriteAt_data_out (fileWriteAt (fileTruncate writeInit.file 24292)
      (List.replicate 12142 3) 0) [] 12142 12142 (by decide)]
    rw [fileWriteAt_data_out (fileTruncate writeInit.file 24292)
      (List.replicate 12142 3) 0 12142 (by rw [List.length_replicate]; decide)]
    rw [fileTruncate_data_lt writeInit.file 24292 12142 (by decide)]
    rfl
  have hdata2 : (fileWriteAt (fileWriteAt (fileTruncate writeInit.file 24292)
      (List.replicate 12142 3) 0) [] 12142).data 24291 = 0 := by
    rw [fileWriteAt_data_out (fileWriteAt (fileTruncate writeInit.file 24292)
      (List.replicate 12142 3) 0) [] 12142 24291 (by decide)]
    rw [fileWriteAt_data_out (fileTruncate writeInit.file 24292)
      (List.replicate 12142 3) 0 24291 (by rw [List.length_replicate]; decide)]
    rw [fileTruncate_data_lt writeInit.file 24292 24291 (by decide)]
    rfl
  have hstep0 := writeStep_frame0_ge writeInit c7f0v rfl (by rw [hbe7]; decide)
  have hstep1 := writeStep_match_last
    { writeInit with
      gotFrame0 := true
      file := fileWriteAt (fileTruncate writeInit.file (beUint64 (c7f0v.take 8)))
        (c7f0v.drop 8) 0
      lengthInt := beUint64 (c7f0v.take 8)
      lastFrameOffset := ((beUint64 (c7f0v.take 8) : Int) - 12142).tmod 12150 }
    1 c7f1v [] rfl rfl rfl (by decide) htake7
  refine ⟨by rw [henc]; rfl, ?_⟩
  rw [h1]
  unfold writerFile writeRun
  simp only [List.foldlM_cons, List.foldlM_nil]
  rw [hstep0]
  simp only [optionBind_some]
  rw [hstep1]
  simp only [optionBind_some]
  show some
    ((fileWriteAt (fileWriteAt (fileTruncate writeInit.file (beUint64 (c7f0v.take 8)))
        (c7f0v.drop 8) 0) [] writeInit.nextWriteByte).size,
     (fileWriteAt (fileWriteAt (fileTruncate writeInit.file (beUint64 (c7f0v.take 8)))
        (c7f0v.drop 8) 0) [] writeInit.nextWriteByte).data 0,
     (fileWriteAt (fileWriteAt (fileTruncate writeInit.file (beUint64 (c7f0v.take 8)))
        (c7f0v.drop 8) 0) [] writeInit.nextWriteByte).data 12142,
     (fileWriteAt (fileWriteAt (fileTruncate writeInit.file (beUint64 (c7f0v.take 8)))
        (c7f0v.drop 8) 0) [] writeInit.nextWriteByte).data 24291) =
    some (24292, 3, 0, 0)
  rw [hdrop, hbe7, show writeInit.nextWriteByte = 12142 from rfl]
  rw [hsize, hdata0, hdata1, hdata2]

end FTV
